import Mathlib

/-!
Verification of the BrainFuck++ array-tape engine (scoped temporary pointers
with transactional undo logging).

This file gives a shallow embedding of the interpreter: the tape with its
bidirectional-growth capacity routine, the jump-table builder for the two
independent bracket families, the scope stack, the level-tagged undo log, and
the fetch/dispatch execution loop.  Machine integers are modelled as `Nat`/`Int`
with explicit `% 2 ^ 64` (for `size_t`) and `% 256` (for `unsigned char`)
where the C code relies on wrap-around; allocation (`malloc`/`realloc`) is
modelled as always succeeding, since allocation exhaustion is environment
nondeterminism outside the program text; reads through an out-of-range
physical index (undefined behaviour in C) are modelled as reading 0 and
writes through one as no-ops (`List.getD` / `List.set`).  C `int` logical
indices are modelled as unbounded `Int` (their overflow is undefined
behaviour in C and unreachable under the interpreter's instruction budget).
-/

namespace BFpp

/-! ## Constants (from the `#define`s) -/

def MAX_TEMP_DEPTH : Nat := 256
def MAX_BRACKET_DEPTH : Nat := 1024
def MAX_CODE_SIZE : Nat := 65536
def INITIAL_TAPE_SIZE : Nat := 30000
def MAX_NESTING_DEPTH : Nat := 1024
def MAX_INSTRUCTIONS : Nat := 100000000
def SIZE_MAX : Nat := 2 ^ 64 - 1

/-! ## The tape -/

/-- The memory tape: `cells` is the backing byte array (`size` is its length)
and `zero_offset` translates logical to physical indices. -/
structure Tape where
  cells : List Nat
  zero_offset : Nat
deriving DecidableEq

/-- `tape->size`: the backing array's length. -/
def Tape.size (t : Tape) : Nat := t.cells.length

/-- Reading a physical cell; an out-of-bounds read (undefined behaviour in C)
is modelled as 0. -/
def Tape.read (t : Tape) (p : Nat) : Nat := t.cells.getD p 0

/-- `(size_t)(-index)` for a negative `index`. -/
def absNeg (i : Int) : Nat := (-i).toNat

/-- The physical index the interpreter computes as
`tape->zero_offset + logical_index` in `size_t` arithmetic (wraps mod 2^64
when the logical index is more negative than the offset). -/
def physIdx (zo : Nat) (i : Int) : Nat := (((zo : Int) + i) % (2 ^ 64 : Int)).toNat

/-- The `required_physical_index` computed at the top of
`ensure_tape_capacity`, including the `0` placeholder the C code uses when
the index is negative and `zero_offset < abs_index`. -/
def requiredPhys (zo : Nat) (i : Int) : Nat :=
  if 0 ≤ i then zo + i.toNat
  else if zo < absNeg i then 0
  else zo - absNeg i

/-- The `shift_amount` heuristic of `ensure_tape_capacity` (recomputed from
the current candidate `new_size` on every doubling iteration; it is 0 unless
the index is negative and lies left of the representable range). -/
def shiftFor (index : Int) (zo new_size : Nat) : Nat :=
  if index < 0 ∧ zo < absNeg index then absNeg index - zo + new_size / 2 else 0

/-- `size_t` subtraction `a - b` (wraps mod 2^64; callers only use values
below 2^64). -/
def wsub (a b : Nat) : Nat := if b ≤ a then a - b else 2 ^ 64 - (b - a)

/-- The doubling loop of `ensure_tape_capacity`:
`while (required >= new_size - shift || new_size < old_size + shift) new_size *= 2`,
failing once `new_size > SIZE_MAX / 2`.  The loop is given as structural
recursion on a fuel of 70, which is provably never exhausted: `new_size`
starts at least 1 and doubles every iteration, so within 63 iterations it
exceeds `SIZE_MAX / 2` and the failure branch fires first. -/
def growLoop (fuel : Nat) (rpi old_size : Nat) (index : Int) (zo : Nat)
    (new_size : Nat) : Option Nat :=
  match fuel with
  | 0 => none
  | fuel + 1 =>
    let shift := shiftFor index zo new_size
    if rpi ≥ wsub new_size shift ∨ new_size < old_size + shift then
      if new_size > SIZE_MAX / 2 then none
      else growLoop fuel rpi old_size index zo (new_size * 2)
    else some new_size

/-- The re-computation of `required_physical_index` and the final bounds
check performed after a (possible) expansion, including the
internal-error path for a negative index the expansion failed to cover. -/
def finishCheck (t : Tape) (index : Int) : Option Tape :=
  if 0 ≤ index then
    if (t.zero_offset + index.toNat) % 2 ^ 64 < t.size then some t else none
  else
    if t.zero_offset < absNeg index then none
    else if t.zero_offset - absNeg index < t.size then some t else none

/-- `ensure_tape_capacity`: guarantee the logical `index` is addressable,
growing (and possibly shifting) the backing array.  `none` models the C
function returning -1.  The `realloc` plus the `memmove`/`memset` calls are
modelled by the corresponding list constructions (every byte of the enlarged
array is either preserved old content or explicitly zero-filled by the C
code, so no uninitialised byte survives). -/
def ensure_tape_capacity (t : Tape) (index : Int) : Option Tape :=
  if 0 ≤ index ∧ SIZE_MAX - index.toNat < t.zero_offset then none
  else
    let rpi := requiredPhys t.zero_offset index
    if rpi < t.size then some t
    else
      let old_size := t.size
      let ns0 := if old_size = 0 then INITIAL_TAPE_SIZE else old_size
      match growLoop 70 rpi old_size index t.zero_offset ns0 with
      | none => none
      | some new_size =>
        let shift := shiftFor index t.zero_offset new_size
        if 0 < shift ∧ shift < new_size ∧ old_size < new_size then
          if new_size < shift + old_size then none
          else
            finishCheck
              ⟨List.replicate shift 0 ++ t.cells ++
                 List.replicate (new_size - (shift + old_size)) 0,
               t.zero_offset + shift⟩ index
        else
          finishCheck
            ⟨(if old_size < new_size then
                t.cells ++ List.replicate (new_size - old_size) 0
              else t.cells),
             t.zero_offset⟩ index

/-- `init_tape`: a zero-filled tape of the given size with the origin at the
midpoint. -/
def init_tape (initial_size : Nat) : Tape :=
  ⟨List.replicate initial_size 0, initial_size / 2⟩

/-! ## Interpreter state -/

/-- An undo-log entry: the cell's logical index, the byte it held before the
first mutation, and the scope level that performed the mutation. -/
structure UndoEntry where
  logical_index : Int
  original_value : Nat
  stack_level : Nat
deriving DecidableEq

/-- The interpreter state.  The C struct stores `code_length`,
`pointer_stack_top` and `undo_log_count` separately; here they are the
lengths of the corresponding lists.  `pointer_stack` has the top of the
stack (`pointer_stack[pointer_stack_top]`) at its head and the root scope
at its end; `undo_log` has the newest entry (`undo_log[count-1]`) at its
head.  The instruction pointer `ip` and the consumed/produced byte streams
are included so that the dispatch loop can be a function on this state. -/
structure St where
  code : List Char
  bracket_map : List Int
  brace_map : List Int
  tape : Tape
  pointer_stack : List Int
  undo_log : List UndoEntry
  undo_log_capacity : Nat
  input : List Nat
  output : List Nat
  ip : Nat
deriving DecidableEq

/-- `interp->pointer_stack_top` (the stack always holds `top + 1` entries). -/
def St.top (s : St) : Nat := s.pointer_stack.length - 1

/-- `current_ptr->index`: the logical index owned by the current scope. -/
def St.cur (s : St) : Int := s.pointer_stack.headD 0

/-- The capacity-doubling formula of `log_undo_entry`. -/
def capGrow (c : Nat) : Nat := if c = 0 then 16 else c * 2

/-- Predicate of the idempotency scan in `log_undo_entry`: an entry blocks a
new record when it is for the same logical index at a level at or above the
current top. -/
def undoBlocks (logical_index : Int) (top : Nat) (e : UndoEntry) : Bool :=
  e.logical_index = logical_index ∧ top ≤ e.stack_level

/-- `log_undo_entry`: idempotent first-write capture.  At the root scope it
does nothing; if the scan (newest entry first) finds a blocking entry it
does nothing; if the log is full and doubling its capacity would exceed
`4 * MAX_CODE_SIZE` it prints an error and returns without recording (the
caller is not told); otherwise it (possibly) doubles the capacity, ensures
the tape covers the index (returning on failure, again silently), and
appends one entry holding the cell's current value tagged with the current
level. -/
def log_undo_entry (s : St) (logical_index : Int) : St :=
  if s.top = 0 then s
  else if (s.undo_log.find? (undoBlocks logical_index s.top)).isSome then s
  else if s.undo_log.length ≥ s.undo_log_capacity ∧
          capGrow s.undo_log_capacity > MAX_CODE_SIZE * 4 then s
  else
    let cap1 := if s.undo_log.length ≥ s.undo_log_capacity then
                  capGrow s.undo_log_capacity
                else s.undo_log_capacity
    match ensure_tape_capacity s.tape logical_index with
    | none => { s with undo_log_capacity := cap1 }
    | some t1 =>
      { s with
        tape := t1,
        undo_log_capacity := cap1,
        undo_log :=
          ⟨logical_index, t1.read (physIdx t1.zero_offset logical_index),
           s.top⟩ :: s.undo_log }

/-- The while-loop of `restore_undo_entries`: pop entries (newest first)
whose level equals the level being closed, writing each saved byte back;
on a capacity failure the C code reverts the pop and breaks. -/
def restoreLoop (target : Nat) (log : List UndoEntry) (t : Tape) :
    List UndoEntry × Tape :=
  match log with
  | [] => ([], t)
  | e :: rest =>
    if e.stack_level = target then
      match ensure_tape_capacity t e.logical_index with
      | none => (e :: rest, t)
      | some t1 =>
        restoreLoop target rest
          ⟨t1.cells.set (physIdx t1.zero_offset e.logical_index)
             e.original_value,
           t1.zero_offset⟩
    else (e :: rest, t)

/-- `restore_undo_entries`: restore every entry of the level currently on
top of the scope stack. -/
def restore_undo_entries (s : St) : St :=
  let r := restoreLoop s.top s.undo_log s.tape
  { s with undo_log := r.1, tape := r.2 }

/-! ## The dispatch loop -/

/-- Outcome of one iteration of the dispatch loop: either the next state or
a fatal runtime error (the C `return -1` paths), which leaves the state as
it was at the failure point. -/
inductive StepOut where
  | cont (s : St)
  | fatal (s : St)
deriving DecidableEq

/-- The `case '>'` block of `run`: ensure capacity for the next logical
index, then move the current scope's pointer. -/
def doGt (s : St) : StepOut :=
  match ensure_tape_capacity s.tape (s.cur + 1) with
  | none => .fatal s
  | some t1 =>
    .cont { s with
              tape := t1,
              pointer_stack := (s.cur + 1) :: s.pointer_stack.tail,
              ip := s.ip + 1 }

/-- The `case '<'` block of `run`. -/
def doLt (s : St) : StepOut :=
  match ensure_tape_capacity s.tape (s.cur - 1) with
  | none => .fatal s
  | some t1 =>
    .cont { s with
              tape := t1,
              pointer_stack := (s.cur - 1) :: s.pointer_stack.tail,
              ip := s.ip + 1 }

/-- The `case '+'` block of `run`: ensure capacity, record the undo entry,
then increment the byte at the physical index computed before the recording
(wrapping mod 256). -/
def doPlus (s : St) : StepOut :=
  match ensure_tape_capacity s.tape s.cur with
  | none => .fatal s
  | some t1 =>
    .cont { log_undo_entry { s with tape := t1 } s.cur with
            tape :=
              ⟨(log_undo_entry { s with tape := t1 } s.cur).tape.cells.set
                  (physIdx t1.zero_offset s.cur)
                  (((log_undo_entry { s with tape := t1 } s.cur).tape.read
                      (physIdx t1.zero_offset s.cur) + 1) % 256),
                (log_undo_entry { s with tape := t1 } s.cur).tape.zero_offset⟩,
            ip := s.ip + 1 }

/-- The `case '-'` block of `run` (decrement wraps mod 256). -/
def doMinus (s : St) : StepOut :=
  match ensure_tape_capacity s.tape s.cur with
  | none => .fatal s
  | some t1 =>
    .cont { log_undo_entry { s with tape := t1 } s.cur with
            tape :=
              ⟨(log_undo_entry { s with tape := t1 } s.cur).tape.cells.set
                  (physIdx t1.zero_offset s.cur)
                  (((log_undo_entry { s with tape := t1 } s.cur).tape.read
                      (physIdx t1.zero_offset s.cur) + 255) % 256),
                (log_undo_entry { s with tape := t1 } s.cur).tape.zero_offset⟩,
            ip := s.ip + 1 }

/-- The `case '.'` block of `run`: write the current byte to the output
sink (the sink itself is modelled as never failing). -/
def doDot (s : St) : StepOut :=
  match ensure_tape_capacity s.tape s.cur with
  | none => .fatal s
  | some t1 =>
    .cont { s with
              tape := t1,
              output := s.output ++ [t1.read (physIdx t1.zero_offset s.cur)],
              ip := s.ip + 1 }

/-- The `case ','` block of `run`: ensure capacity, read one byte from the
input (`fgetc`; end-of-input yields 0), record the undo entry, store the
byte. -/
def doComma (s : St) : StepOut :=
  match ensure_tape_capacity s.tape s.cur with
  | none => .fatal s
  | some t1 =>
    match s.input with
    | [] =>
      .cont { log_undo_entry { s with tape := t1, input := [] } s.cur with
              tape :=
                ⟨(log_undo_entry { s with tape := t1, input := [] }
                     s.cur).tape.cells.set (physIdx t1.zero_offset s.cur) 0,
                  (log_undo_entry { s with tape := t1, input := [] }
                     s.cur).tape.zero_offset⟩,
              ip := s.ip + 1 }
    | x :: xs =>
      .cont { log_undo_entry { s with tape := t1, input := xs } s.cur with
              tape :=
                ⟨(log_undo_entry { s with tape := t1, input := xs }
                     s.cur).tape.cells.set (physIdx t1.zero_offset s.cur)
                    (x % 256),
                  (log_undo_entry { s with tape := t1, input := xs }
                     s.cur).tape.zero_offset⟩,
              ip := s.ip + 1 }

/-- The `case '['` block of `run`: jump forward past the matching `]` when
the current byte is 0 (the `ip++` after the `switch` then lands one past
the partner). -/
def doLb (s : St) : StepOut :=
  match ensure_tape_capacity s.tape s.cur with
  | none => .fatal s
  | some t1 =>
    if t1.read (physIdx t1.zero_offset s.cur) = 0 then
      if s.bracket_map.getD s.ip (-1) = -1 then .fatal { s with tape := t1 }
      else .cont { s with
                     tape := t1,
                     ip := (s.bracket_map.getD s.ip (-1)).toNat + 1 }
    else .cont { s with tape := t1, ip := s.ip + 1 }

/-- The `case ']'` block of `run`: jump back when the current byte is
non-zero (the `ip++` after the `switch` then lands one past the partner
`[`). -/
def doRb (s : St) : StepOut :=
  match ensure_tape_capacity s.tape s.cur with
  | none => .fatal s
  | some t1 =>
    if ¬ t1.read (physIdx t1.zero_offset s.cur) = 0 then
      if s.bracket_map.getD s.ip (-1) = -1 then .fatal { s with tape := t1 }
      else .cont { s with
                     tape := t1,
                     ip := (s.bracket_map.getD s.ip (-1)).toNat + 1 }
    else .cont { s with tape := t1, ip := s.ip + 1 }

/-- The `case '{'` block of `run`: guard against stack overflow, then push
a scope entry copying the current logical index. -/
def doLbrace (s : St) : StepOut :=
  if s.top + 1 ≥ MAX_TEMP_DEPTH then .fatal s
  else .cont { s with
                 pointer_stack := s.cur :: s.pointer_stack,
                 ip := s.ip + 1 }

/-- The `case '}'` block of `run`: guard against closing the root scope,
restore the closing level's undo entries, pop the scope stack. -/
def doRbrace (s : St) : StepOut :=
  if s.top = 0 then .fatal s
  else
    .cont { restore_undo_entries s with
              pointer_stack := (restore_undo_entries s).pointer_stack.tail,
              ip := s.ip + 1 }

/-- One iteration of the `while` loop of `run`: fetch the command at `ip`,
dispatch, and advance `ip` (the C code increments `ip` after the `switch`
on every non-error path, including after a jump has assigned `ip`; the
per-case `ip` updates above already account for that increment). -/
def step (s : St) : StepOut :=
  if s.code.getD s.ip ' ' = '>' then doGt s
  else if s.code.getD s.ip ' ' = '<' then doLt s
  else if s.code.getD s.ip ' ' = '+' then doPlus s
  else if s.code.getD s.ip ' ' = '-' then doMinus s
  else if s.code.getD s.ip ' ' = '.' then doDot s
  else if s.code.getD s.ip ' ' = ',' then doComma s
  else if s.code.getD s.ip ' ' = '[' then doLb s
  else if s.code.getD s.ip ' ' = ']' then doRb s
  else if s.code.getD s.ip ' ' = '{' then doLbrace s
  else if s.code.getD s.ip ' ' = '}' then doRbrace s
  else .cont { s with ip := s.ip + 1 }

/-- Outcome of a whole run: normal completion, a fatal runtime error, or the
instruction budget running out. -/
inductive RunResult where
  | ok (s : St)
  | error (s : St)
  | limit (s : St)
deriving DecidableEq

/-- The `while (ip < code_length && instruction_count < MAX_INSTRUCTIONS)`
loop; the fuel is the number of instructions the budget still allows. -/
def runLoop (fuel : Nat) (s : St) : RunResult :=
  match fuel with
  | 0 => .limit s
  | fuel + 1 =>
    if s.ip < s.code.length then
      match step s with
      | .fatal s1 => .error s1
      | .cont s1 => runLoop fuel s1
    else .ok s

/-- The cleanup loop at the end of `run`: force-close every scope still open
beyond the root (restore, then pop).  `restore_undo_entries` never changes
the stack, so a fuel equal to the stack length is exactly enough. -/
def forceCloseAux (fuel : Nat) (s : St) : St :=
  match fuel with
  | 0 => s
  | fuel + 1 =>
    if s.pointer_stack.length ≤ 1 then s
    else
      let s1 := restore_undo_entries s
      forceCloseAux fuel { s1 with pointer_stack := s1.pointer_stack.tail }

def forceClose (s : St) : St := forceCloseAux s.pointer_stack.length s

/-- `run`: reset the scope stack to the root at logical index 0, drive the
dispatch loop, report the budget running out as an error, and force-close
remaining scopes on normal termination. -/
def run (s : St) : RunResult :=
  let s0 := { s with pointer_stack := [0], ip := 0 }
  match runLoop MAX_INSTRUCTIONS s0 with
  | .limit s1 => .error s1
  | .error s1 => .error s1
  | .ok s1 => .ok (forceClose s1)

/-- Iterating the dispatch loop a fixed number of continuing steps (used to
talk about the execution of a scope's body between its `\x7b` and its
matching `\x7d`): `none` when a fatal error occurs along the way. -/
def iterateCont : Nat → St → Option St
  | 0, s => some s
  | n + 1, s =>
    match step s with
    | .cont s1 => iterateCont n s1
    | .fatal _ => none

/-! ## Code filter and jump-table builder -/

/-- `is_command_char`: membership in the command alphabet. -/
def is_command_char (c : Char) : Bool :=
  c ∈ ['+', '-', '<', '>', '.', ',', '[', ']', '{', '}']

/-- C `isspace` for the characters that can occur here. -/
def isSpaceChar (c : Char) : Bool :=
  c ∈ [' ', '\t', '\n', '\x0b', '\x0c', '\r']

/-- `filter_code`: drop `#`-to-end-of-line comments, whitespace and any
non-command character. -/
def filter_code : List Char → Bool → List Char
  | [], _ => []
  | c :: rest, true =>
    if c = '\n' then filter_code rest false else filter_code rest true
  | c :: rest, false =>
    if c = '#' then filter_code rest true
    else if ¬ isSpaceChar c ∧ is_command_char c then
      c :: filter_code rest false
    else filter_code rest false

/-- The two bracket families. -/
inductive PairType where
  | bracket
  | brace
deriving DecidableEq

/-- The scan of `build_maps`: one pass with a unified stack of
`(position, family)` pairs (head = top), recording the bidirectional
mapping for each matched pair.  `none` models the C function returning -1
(unmatched closer, crossed families, depth above `MAX_NESTING_DEPTH`, or an
opener left on the stack at the end). -/
def buildMapsLoop : List Char → Nat → List (Nat × PairType) →
    List Int → List Int → Option (List Int × List Int)
  | [], _, stack, bm, cm => if stack.isEmpty then some (bm, cm) else none
  | c :: rest, i, stack, bm, cm =>
    if c = '[' then
      if stack.length + 1 > MAX_NESTING_DEPTH then none
      else buildMapsLoop rest (i + 1) ((i, .bracket) :: stack) bm cm
    else if c = '{' then
      if stack.length + 1 > MAX_NESTING_DEPTH then none
      else buildMapsLoop rest (i + 1) ((i, .brace) :: stack) bm cm
    else if c = ']' then
      match stack with
      | [] => none
      | (p, ty) :: stack1 =>
        if ty = PairType.bracket then
          buildMapsLoop rest (i + 1) stack1
            ((bm.set i (p : Int)).set p (i : Int)) cm
        else none
    else if c = '}' then
      match stack with
      | [] => none
      | (p, ty) :: stack1 =>
        if ty = PairType.brace then
          buildMapsLoop rest (i + 1) stack1 bm
            ((cm.set i (p : Int)).set p (i : Int))
        else none
    else buildMapsLoop rest (i + 1) stack bm cm

/-- `build_maps` on already-filtered code, starting from maps filled
with -1. -/
def build_maps (code : List Char) : Option (List Int × List Int) :=
  buildMapsLoop code 0 [] (List.replicate code.length (-1))
    (List.replicate code.length (-1))

/-- `create_interpreter`: filter the code, reject oversized programs, build
the jump maps, and assemble the initial state (tape of `INITIAL_TAPE_SIZE`
zeroes with the origin at the midpoint, root scope at logical index 0,
empty undo log of capacity 16). -/
def create_interpreter (src : List Char) (input : List Nat) : Option St :=
  let code := filter_code src false
  if code.length > MAX_CODE_SIZE then none
  else
    match build_maps code with
    | none => none
    | some maps =>
      some ⟨code, maps.1, maps.2, init_tape INITIAL_TAPE_SIZE, [0], [], 16,
            input, [], 0⟩

/-! ## Spec-side nesting descriptions (for claim C3)

These two scans are written from the claim's words, not from the source:
a closer must close the nearest unclosed opener and that opener must be of
the closer's own family, with nothing left unclosed at the end.  `scanOk`
is the claim exactly as stated (no depth bound); `scanOkD` additionally
refuses to open a 1025th simultaneous scope, which is the amendment the
code's `MAX_NESTING_DEPTH` check forces. -/

def scanOk : List Char → List PairType → Bool
  | [], stack => stack.isEmpty
  | c :: rest, stack =>
    if c = '[' then scanOk rest (.bracket :: stack)
    else if c = '{' then scanOk rest (.brace :: stack)
    else if c = ']' then
      match stack with
      | PairType.bracket :: stack1 => scanOk rest stack1
      | _ => false
    else if c = '}' then
      match stack with
      | PairType.brace :: stack1 => scanOk rest stack1
      | _ => false
    else scanOk rest stack

def scanOkD : List Char → List PairType → Bool
  | [], stack => stack.isEmpty
  | c :: rest, stack =>
    if c = '[' then
      if stack.length + 1 > MAX_NESTING_DEPTH then false
      else scanOkD rest (.bracket :: stack)
    else if c = '{' then
      if stack.length + 1 > MAX_NESTING_DEPTH then false
      else scanOkD rest (.brace :: stack)
    else if c = ']' then
      match stack with
      | PairType.bracket :: stack1 => scanOkD rest stack1
      | _ => false
    else if c = '}' then
      match stack with
      | PairType.brace :: stack1 => scanOkD rest stack1
      | _ => false
    else scanOkD rest stack

/-- The opening character of a pair family. -/
def openChar : PairType → Char
  | .bracket => '['
  | .brace => '{'

/-- The closing character of a pair family. -/
def closeChar : PairType → Char
  | .bracket => ']'
  | .brace => '}'

/-- The jump table belonging to a pair family. -/
def famMap : PairType → List Int → List Int → List Int
  | .bracket, bm, _ => bm
  | .brace, _, cm => cm

/-- Positions `p` and `q` point at each other in the map `m` (the
bidirectional recording the claim asks for). -/
def matchedIn (m : List Int) (p q : Nat) : Prop :=
  m.getD p (-1) = (q : Int) ∧ m.getD q (-1) = (p : Int)

/-- The claim's per-position success contract: every bracket and every
brace in the code has a partner of the right family on the right side,
recorded bidirectionally in that family's table. -/
def goodAt (C : List Char) (bm cm : List Int) (q : Nat) : Prop :=
  (C.getD q ' ' = '[' →
    ∃ p, q < p ∧ p < C.length ∧ C.getD p ' ' = ']' ∧ matchedIn bm q p) ∧
  (C.getD q ' ' = ']' →
    ∃ p, p < q ∧ C.getD p ' ' = '[' ∧ matchedIn bm q p) ∧
  (C.getD q ' ' = '{' →
    ∃ p, q < p ∧ p < C.length ∧ C.getD p ' ' = '}' ∧ matchedIn cm q p) ∧
  (C.getD q ' ' = '}' →
    ∃ p, p < q ∧ C.getD p ' ' = '{' ∧ matchedIn cm q p)

/-! ## Concrete states used by individual claims -/

/-- The doubling-loop test program of the spec (already filtered). -/
def c10_src : List Char := ['+', '+', '[', '>', '+', '+', '<', '-', ']']

/-- The zero-filled initial cell array. -/
def zeros : List Nat := List.replicate 30000 0

/-- The shape every state reached while running `c10_src` has: only the
cells, the scope stack and `ip` change. -/
def c10_st (l : List Nat) (stk : List Int) (input : List Nat) (ip : Nat) : St :=
  ⟨c10_src, [-1, -1, 8, -1, -1, -1, -1, -1, 2], List.replicate 9 (-1),
   ⟨l, 15000⟩, stk, [], 16, input, [], ip⟩

/-- The interpreter state `create_interpreter` produces for `c10_src`
(checked by `create_c10` below). -/
def c10_init (input : List Nat) : St := c10_st zeros [0] input 0

/-- A well-nested program of combined depth 1025: 1025 `[`s followed by
1025 `]`s. -/
def deepProg : List Char := List.replicate 1025 '[' ++ List.replicate 1025 ']'

/-- A state whose undo log is at the hard capacity cap (`4 * MAX_CODE_SIZE`
entries, all for logical index 0 at level 1), about to execute `+` on
logical index 1 (cell value 7) inside scope level 1 and then close that
scope.  Every field is concrete; the small 3-cell tape keeps the example
readable (the lemmas used about it hold for any state shape). -/
def fullSt : St :=
  ⟨['+', '}'], [-1, -1], [-1, -1], ⟨[7, 7, 7], 1⟩, [1, 0],
   List.replicate 262144 ⟨0, 7, 1⟩, 262144, [], [], 0⟩

/-- The tape `init_tape` builds at interpreter start. -/
def initialTape : Tape := init_tape INITIAL_TAPE_SIZE

/-- A concrete state used to witness the scope-overflow error: 256 open
scopes and a `{` to execute. -/
def ovSt : St :=
  ⟨['{'], [-1], [-1], ⟨[0], 0⟩, List.replicate 256 0, [], 16, [], [], 0⟩

/-- A concrete state used to witness the root-close error: only the root
scope open and a `}` to execute. -/
def unSt : St :=
  ⟨['}'], [-1], [-1], ⟨[0], 0⟩, [0], [], 16, [], [], 0⟩

/-- The initial interpreter state for the program `[]` (as
`create_interpreter` builds it; checked by `create_c7`). -/
def c7St : St :=
  ⟨['[', ']'], [1, 0], List.replicate 2 (-1), ⟨zeros, 15000⟩, [0], [], 16,
   [], [], 0⟩

/-- A small concrete state about to execute `,`: tape of three cells
holding 5, origin at physical index 1, root scope at logical index 0. -/
def c9St (input : List Nat) : St :=
  ⟨[','], [-1], [-1], ⟨[5, 5, 5], 1⟩, [0], [], 16, input, [], 0⟩

/-- An undo log of `n` entries with distinct logical indices (`n - 1`
down to 0), all at level 1 — the shape the code's own first-write capture
produces. -/
def c5LogAux : Nat → List UndoEntry
  | 0 => []
  | n + 1 => ⟨(n : Int), 7, 1⟩ :: c5LogAux n

/-- A state with scope level 1 open and an undo log of 262144 distinct
entries at the capacity cap, used for claim C5. -/
def c5St : St :=
  ⟨['+'], [-1], [-1], ⟨[7, 7, 7], 1⟩, [1, 0], c5LogAux 262144, 262144,
   [], [], 0⟩

/-- A small state with scope level 1 open and an empty undo log, used for
the C5 witness. -/
def c5Wit : St :=
  ⟨['+'], [-1], [-1], ⟨[5, 5, 5], 1⟩, [1, 0], [], 16, [], [], 0⟩

/-- The interpreter state for the filtered program `\x7b>>\x7d` at the
moment `run` starts it: a scope is opened, the pointer moves right twice
inside it, and the scope closes (used for claim C6). -/
def c6St : St :=
  ⟨['{', '>', '>', '}'], List.replicate 4 (-1), [3, -1, -1, 0],
   ⟨zeros, 15000⟩, [0], [], 16, [], [], 0⟩

end BFpp

namespace BFpp

/-! ## Generic list lemmas used to evaluate tape operations without deep
kernel recursion -/

theorem getD_replicate (n i : Nat) (a d : Nat) :
    (List.replicate n a).getD i d = if i < n then a else d := by
  by_cases h : i < n
  · rw [List.getD_eq_getElem _ _ (by simpa using h), List.getElem_replicate,
      if_pos h]
  · rw [List.getD_eq_default _ _ (by simpa using Nat.le_of_not_lt h), if_neg h]

theorem getD_set (l : List Nat) (i j : Nat) (v d : Nat) :
    (l.set i v).getD j d =
      if i = j ∧ j < l.length then v else l.getD j d := by
  by_cases h : i = j ∧ j < l.length
  · obtain ⟨rfl, h2⟩ := h
    rw [if_pos ⟨rfl, h2⟩, List.getD_eq_getElem _ _ (by simpa using h2)]
    simp
  · rw [if_neg h]
    rcases Decidable.em (i = j) with rfl | hne
    · have h2 : ¬ i < l.length := fun hl => h ⟨rfl, hl⟩
      rw [List.getD_eq_default _ _ (by simpa using Nat.le_of_not_lt h2),
        List.getD_eq_default _ _ (Nat.le_of_not_lt h2)]
    · by_cases hj : j < l.length
      · rw [List.getD_eq_getElem _ _ (by simpa using hj),
          List.getD_eq_getElem _ _ hj]
        rw [List.getElem_set_ne hne]
      · rw [List.getD_eq_default _ _ (by simpa using Nat.le_of_not_lt hj),
          List.getD_eq_default _ _ (Nat.le_of_not_lt hj)]

theorem read_mk (l : List Nat) (zo p : Nat) :
    Tape.read ⟨l, zo⟩ p = l.getD p 0 := rfl

theorem size_mk (l : List Nat) (zo : Nat) : Tape.size ⟨l, zo⟩ = l.length := rfl

/-! ## Characterization lemmas for the interpreter's operations

These restate, with explicit hypotheses, what each branch of the source
functions does; they let concrete executions be driven by rewriting instead
of deep kernel evaluation. -/

theorem ensure_noop (t : Tape) (i : Int)
    (h1 : ¬ (0 ≤ i ∧ SIZE_MAX - i.toNat < t.zero_offset))
    (h2 : requiredPhys t.zero_offset i < t.size) :
    ensure_tape_capacity t i = some t := by
  unfold ensure_tape_capacity
  rw [if_neg h1, if_pos h2]

theorem log_undo_root (s : St) (i : Int) (h : s.top = 0) :
    log_undo_entry s i = s := by
  unfold log_undo_entry
  rw [if_pos h]

theorem log_undo_blocked (s : St) (i : Int) (h0 : ¬ s.top = 0)
    (h : (s.undo_log.find? (undoBlocks i s.top)).isSome) :
    log_undo_entry s i = s := by
  unfold log_undo_entry
  rw [if_neg h0, if_pos h]

theorem log_undo_cap_fail (s : St) (i : Int) (h0 : ¬ s.top = 0)
    (h1 : ¬ (s.undo_log.find? (undoBlocks i s.top)).isSome)
    (h2 : s.undo_log.length ≥ s.undo_log_capacity ∧
          capGrow s.undo_log_capacity > MAX_CODE_SIZE * 4) :
    log_undo_entry s i = s := by
  unfold log_undo_entry
  rw [if_neg h0, if_neg h1, if_pos h2]

theorem log_undo_append (s : St) (i : Int) (t1 : Tape) (h0 : ¬ s.top = 0)
    (h1 : ¬ (s.undo_log.find? (undoBlocks i s.top)).isSome)
    (h2 : ¬ (s.undo_log.length ≥ s.undo_log_capacity ∧
             capGrow s.undo_log_capacity > MAX_CODE_SIZE * 4))
    (he : ensure_tape_capacity s.tape i = some t1) :
    log_undo_entry s i =
      { s with
        tape := t1,
        undo_log_capacity :=
          if s.undo_log.length ≥ s.undo_log_capacity then
            capGrow s.undo_log_capacity
          else s.undo_log_capacity,
        undo_log :=
          ⟨i, t1.read (physIdx t1.zero_offset i), s.top⟩ :: s.undo_log } := by
  unfold log_undo_entry
  rw [if_neg h0, if_neg h1, if_neg h2, he]

theorem step_gt (s : St) (t1 : Tape)
    (hc : s.code.getD s.ip ' ' = '>')
    (he : ensure_tape_capacity s.tape (s.cur + 1) = some t1) :
    step s = .cont { s with
                       tape := t1,
                       pointer_stack := (s.cur + 1) :: s.pointer_stack.tail,
                       ip := s.ip + 1 } := by
  unfold step
  rw [hc]
  change doGt s = _
  unfold doGt
  rw [he]

theorem step_lt (s : St) (t1 : Tape)
    (hc : s.code.getD s.ip ' ' = '<')
    (he : ensure_tape_capacity s.tape (s.cur - 1) = some t1) :
    step s = .cont { s with
                       tape := t1,
                       pointer_stack := (s.cur - 1) :: s.pointer_stack.tail,
                       ip := s.ip + 1 } := by
  unfold step
  rw [hc]
  change doLt s = _
  unfold doLt
  rw [he]

theorem step_plus (s : St) (t1 : Tape)
    (hc : s.code.getD s.ip ' ' = '+')
    (he : ensure_tape_capacity s.tape s.cur = some t1) :
    step s =
      .cont { log_undo_entry { s with tape := t1 } s.cur with
              tape :=
                ⟨(log_undo_entry { s with tape := t1 } s.cur).tape.cells.set
                    (physIdx t1.zero_offset s.cur)
                    (((log_undo_entry { s with tape := t1 } s.cur).tape.read
                        (physIdx t1.zero_offset s.cur) + 1) % 256),
                  (log_undo_entry { s with tape := t1 } s.cur).tape.zero_offset⟩,
              ip := s.ip + 1 } := by
  unfold step
  rw [hc]
  change doPlus s = _
  unfold doPlus
  rw [he]

theorem step_minus (s : St) (t1 : Tape)
    (hc : s.code.getD s.ip ' ' = '-')
    (he : ensure_tape_capacity s.tape s.cur = some t1) :
    step s =
      .cont { log_undo_entry { s with tape := t1 } s.cur with
              tape :=
                ⟨(log_undo_entry { s with tape := t1 } s.cur).tape.cells.set
                    (physIdx t1.zero_offset s.cur)
                    (((log_undo_entry { s with tape := t1 } s.cur).tape.read
                        (physIdx t1.zero_offset s.cur) + 255) % 256),
                  (log_undo_entry { s with tape := t1 } s.cur).tape.zero_offset⟩,
              ip := s.ip + 1 } := by
  unfold step
  rw [hc]
  change doMinus s = _
  unfold doMinus
  rw [he]

theorem step_dot (s : St) (t1 : Tape)
    (hc : s.code.getD s.ip ' ' = '.')
    (he : ensure_tape_capacity s.tape s.cur = some t1) :
    step s =
      .cont { s with
                tape := t1,
                output := s.output ++ [t1.read (physIdx t1.zero_offset s.cur)],
                ip := s.ip + 1 } := by
  unfold step
  rw [hc]
  change doDot s = _
  unfold doDot
  rw [he]

theorem step_comma_nil (s : St) (t1 : Tape)
    (hc : s.code.getD s.ip ' ' = ',')
    (hin : s.input = [])
    (he : ensure_tape_capacity s.tape s.cur = some t1) :
    step s =
      .cont { log_undo_entry { s with tape := t1, input := [] } s.cur with
              tape :=
                ⟨(log_undo_entry { s with tape := t1, input := [] }
                     s.cur).tape.cells.set (physIdx t1.zero_offset s.cur) 0,
                  (log_undo_entry { s with tape := t1, input := [] }
                     s.cur).tape.zero_offset⟩,
              ip := s.ip + 1 } := by
  unfold step
  rw [hc]
  change doComma s = _
  unfold doComma
  rw [he, hin]

theorem step_comma_cons (s : St) (t1 : Tape) (x : Nat) (xs : List Nat)
    (hc : s.code.getD s.ip ' ' = ',')
    (hin : s.input = x :: xs)
    (he : ensure_tape_capacity s.tape s.cur = some t1) :
    step s =
      .cont { log_undo_entry { s with tape := t1, input := xs } s.cur with
              tape :=
                ⟨(log_undo_entry { s with tape := t1, input := xs }
                     s.cur).tape.cells.set (physIdx t1.zero_offset s.cur)
                    (x % 256),
                  (log_undo_entry { s with tape := t1, input := xs }
                     s.cur).tape.zero_offset⟩,
              ip := s.ip + 1 } := by
  unfold step
  rw [hc]
  change doComma s = _
  unfold doComma
  rw [he, hin]

theorem step_lbracket_zero (s : St) (t1 : Tape) (p : Nat) (jt : Int)
    (hc : s.code.getD s.ip ' ' = '[')
    (he : ensure_tape_capacity s.tape s.cur = some t1)
    (hp : physIdx t1.zero_offset s.cur = p)
    (hz : t1.read p = 0)
    (hjt : s.bracket_map.getD s.ip (-1) = jt)
    (hne : ¬ jt = -1) :
    step s = .cont { s with tape := t1, ip := jt.toNat + 1 } := by
  unfold step
  rw [hc]
  change doLb s = _
  unfold doLb
  simp only [he, hp, hz, hjt]
  rw [if_pos trivial, if_neg hne]

theorem step_lbracket_nonzero (s : St) (t1 : Tape) (p : Nat)
    (hc : s.code.getD s.ip ' ' = '[')
    (he : ensure_tape_capacity s.tape s.cur = some t1)
    (hp : physIdx t1.zero_offset s.cur = p)
    (hz : ¬ t1.read p = 0) :
    step s = .cont { s with tape := t1, ip := s.ip + 1 } := by
  unfold step
  rw [hc]
  change doLb s = _
  unfold doLb
  simp only [he, hp]
  rw [if_neg hz]

theorem step_rbracket_nonzero (s : St) (t1 : Tape) (p : Nat) (jt : Int)
    (hc : s.code.getD s.ip ' ' = ']')
    (he : ensure_tape_capacity s.tape s.cur = some t1)
    (hp : physIdx t1.zero_offset s.cur = p)
    (hz : ¬ t1.read p = 0)
    (hjt : s.bracket_map.getD s.ip (-1) = jt)
    (hne : ¬ jt = -1) :
    step s = .cont { s with tape := t1, ip := jt.toNat + 1 } := by
  unfold step
  rw [hc]
  change doRb s = _
  unfold doRb
  simp only [he, hp, hjt]
  rw [if_pos hz, if_neg hne]

theorem step_rbracket_zero (s : St) (t1 : Tape) (p : Nat)
    (hc : s.code.getD s.ip ' ' = ']')
    (he : ensure_tape_capacity s.tape s.cur = some t1)
    (hp : physIdx t1.zero_offset s.cur = p)
    (hz : t1.read p = 0) :
    step s = .cont { s with tape := t1, ip := s.ip + 1 } := by
  unfold step
  rw [hc]
  change doRb s = _
  unfold doRb
  simp only [he, hp]
  rw [if_neg (not_not_intro hz)]

theorem step_lbrace_ok (s : St)
    (hc : s.code.getD s.ip ' ' = '{')
    (h : ¬ s.top + 1 ≥ MAX_TEMP_DEPTH) :
    step s = .cont { s with
                       pointer_stack := s.cur :: s.pointer_stack,
                       ip := s.ip + 1 } := by
  unfold step
  rw [hc]
  change doLbrace s = _
  unfold doLbrace
  rw [if_neg h]

theorem step_lbrace_fail (s : St)
    (hc : s.code.getD s.ip ' ' = '{')
    (h : s.top + 1 ≥ MAX_TEMP_DEPTH) :
    step s = .fatal s := by
  unfold step
  rw [hc]
  change doLbrace s = _
  unfold doLbrace
  rw [if_pos h]

theorem step_rbrace_ok (s : St)
    (hc : s.code.getD s.ip ' ' = '}')
    (h : ¬ s.top = 0) :
    step s =
      .cont { restore_undo_entries s with
              pointer_stack := (restore_undo_entries s).pointer_stack.tail,
              ip := s.ip + 1 } := by
  unfold step
  rw [hc]
  change doRbrace s = _
  unfold doRbrace
  rw [if_neg h]

theorem step_rbrace_fail (s : St)
    (hc : s.code.getD s.ip ' ' = '}')
    (h : s.top = 0) :
    step s = .fatal s := by
  unfold step
  rw [hc]
  change doRbrace s = _
  unfold doRbrace
  rw [if_pos h]

theorem runLoop_cont (n : Nat) (s s1 : St)
    (hip : s.ip < s.code.length) (h : step s = .cont s1) :
    runLoop (n + 1) s = runLoop n s1 := by
  conv_lhs => rw [runLoop]
  rw [if_pos hip, h]

theorem runLoop_fatal (n : Nat) (s s1 : St)
    (hip : s.ip < s.code.length) (h : step s = .fatal s1) :
    runLoop (n + 1) s = .error s1 := by
  conv_lhs => rw [runLoop]
  rw [if_pos hip, h]

theorem runLoop_done (n : Nat) (s : St) (hip : ¬ s.ip < s.code.length) :
    runLoop (n + 1) s = .ok s := by
  conv_lhs => rw [runLoop]
  rw [if_neg hip]

theorem forceClose_root (s : St) (h : s.pointer_stack.length = 1) :
    forceClose s = s := by
  unfold forceClose forceCloseAux
  rw [h]
  simp

theorem run_eq (s : St) :
    run s =
      match runLoop MAX_INSTRUCTIONS { s with pointer_stack := [0], ip := 0 } with
      | .limit s1 => .error s1
      | .error s1 => .error s1
      | .ok s1 => .ok (forceClose s1) := rfl

/-- A tape of the initial size with the origin at the midpoint never grows
for an index below 15000 (for any index at or beyond -15000 it is in range,
and below that the placeholder-0 path also reports it in range). -/
theorem ensure_initial (l : List Nat) (i : Int) (hlen : l.length = 30000)
    (hi : i < 15000) :
    ensure_tape_capacity ⟨l, 15000⟩ i = some ⟨l, 15000⟩ := by
  apply ensure_noop
  · rintro ⟨h0, hbad⟩
    simp only [SIZE_MAX] at hbad
    norm_num at hbad
    omega
  · show requiredPhys (15000 : Nat) i < Tape.size ⟨l, 15000⟩
    rw [size_mk, hlen]
    unfold requiredPhys absNeg
    split_ifs <;> omega

theorem len_zeros : zeros.length = 30000 := List.length_replicate _ _

theorem getD_zeros (i : Nat) : zeros.getD i 0 = 0 := by
  rw [zeros, getD_replicate]
  split <;> rfl

/-- `+` executed at the root scope (level 0): no undo entry is recorded and
the byte at the current physical index is incremented mod 256. -/
theorem step_plus_root (s : St) (p v : Nat)
    (hc : s.code.getD s.ip ' ' = '+')
    (htop : s.top = 0)
    (he : ensure_tape_capacity s.tape s.cur = some s.tape)
    (hp : physIdx s.tape.zero_offset s.cur = p)
    (hv : s.tape.read p = v) :
    step s = .cont { s with
                     tape := ⟨s.tape.cells.set p ((v + 1) % 256),
                       s.tape.zero_offset⟩,
                     ip := s.ip + 1 } := by
  rw [step_plus s s.tape hc he]
  have hs : ({ s with tape := s.tape } : St) = s := rfl
  rw [hs, log_undo_root s s.cur htop, hp, hv]

/-- `-` executed at the root scope. -/
theorem step_minus_root (s : St) (p v : Nat)
    (hc : s.code.getD s.ip ' ' = '-')
    (htop : s.top = 0)
    (he : ensure_tape_capacity s.tape s.cur = some s.tape)
    (hp : physIdx s.tape.zero_offset s.cur = p)
    (hv : s.tape.read p = v) :
    step s = .cont { s with
                     tape := ⟨s.tape.cells.set p ((v + 255) % 256),
                       s.tape.zero_offset⟩,
                     ip := s.ip + 1 } := by
  rw [step_minus s s.tape hc he]
  have hs : ({ s with tape := s.tape } : St) = s := rfl
  rw [hs, log_undo_root s s.cur htop, hp, hv]

/-- `,` executed at the root scope with the input exhausted. -/
theorem step_comma_nil_root (s : St) (p : Nat)
    (hc : s.code.getD s.ip ' ' = ',')
    (htop : s.top = 0)
    (hin : s.input = [])
    (he : ensure_tape_capacity s.tape s.cur = some s.tape)
    (hp : physIdx s.tape.zero_offset s.cur = p) :
    step s = .cont { s with
                     tape := ⟨s.tape.cells.set p 0, s.tape.zero_offset⟩,
                     ip := s.ip + 1 } := by
  rw [step_comma_nil s s.tape hc hin he]
  have hs : ({ s with tape := s.tape, input := [] } : St) = s := by
    rw [← hin]
  rw [hs, log_undo_root s s.cur htop, hp]

/-- `,` executed at the root scope with a byte available. -/
theorem step_comma_cons_root (s : St) (p : Nat) (x : Nat) (xs : List Nat)
    (hc : s.code.getD s.ip ' ' = ',')
    (htop : s.top = 0)
    (hin : s.input = x :: xs)
    (he : ensure_tape_capacity s.tape s.cur = some s.tape)
    (hp : physIdx s.tape.zero_offset s.cur = p) :
    step s = .cont { s with
                     tape := ⟨s.tape.cells.set p (x % 256), s.tape.zero_offset⟩,
                     input := xs,
                     ip := s.ip + 1 } := by
  rw [step_comma_cons s s.tape x xs hc hin he]
  rw [log_undo_root { s with tape := s.tape, input := xs } s.cur htop, hp]

/-- Fuel-agnostic forms of the `runLoop` unfolding lemmas, convenient for
driving a concrete execution. -/
theorem runLoop_cont' (n : Nat) (s s1 : St) (hn : n ≠ 0)
    (hip : s.ip < s.code.length) (h : step s = .cont s1) :
    runLoop n s = runLoop (n - 1) s1 := by
  obtain ⟨m, rfl⟩ := Nat.exists_eq_succ_of_ne_zero hn
  rw [runLoop_cont m _ _ hip h]
  congr 1

theorem runLoop_done' (n : Nat) (s : St) (hn : n ≠ 0)
    (hip : ¬ s.ip < s.code.length) :
    runLoop n s = .ok s := by
  obtain ⟨m, rfl⟩ := Nat.exists_eq_succ_of_ne_zero hn
  exact runLoop_done m s hip

/-- Evaluation support: `run` on the doubling-loop program `++[>++<-]`,
step by step. -/
theorem c10_run (input : List Nat) :
    runLoop MAX_INSTRUCTIONS (c10_init input) =
      .ok (c10_st ((((((((zeros.set 15000 1).set 15000 2).set 15001 1).set 15001 2).set 15000 1).set 15001 3).set 15001 4).set 15000 0) [0] input 9) := by
  unfold c10_init
  have r1 : Tape.read ⟨zeros, 15000⟩ 15000 = 0 := by
    rw [read_mk]; exact getD_zeros _
  have h1 : step (c10_st zeros [0] input 0) =
      .cont (c10_st (zeros.set 15000 1) [0] input 1) := by
    rw [step_plus_root (c10_st zeros [0] input 0) 15000 0 rfl rfl
        (ensure_initial zeros 0 len_zeros (by decide)) rfl r1]
    rfl
  have r2 : Tape.read ⟨(zeros.set 15000 1), 15000⟩ 15000 = 1 := by
    rw [read_mk]
    simp only [getD_set, List.length_set, len_zeros, getD_zeros]
    norm_num
  have h2 : step (c10_st (zeros.set 15000 1) [0] input 1) =
      .cont (c10_st ((zeros.set 15000 1).set 15000 2) [0] input 2) := by
    rw [step_plus_root (c10_st (zeros.set 15000 1) [0] input 1) 15000 1 rfl rfl
        (ensure_initial (zeros.set 15000 1) 0 (by simp [List.length_set, len_zeros]) (by decide)) rfl r2]
    rfl
  have r3 : Tape.read ⟨((zeros.set 15000 1).set 15000 2), 15000⟩ 15000 = 2 := by
    rw [read_mk]
    simp only [getD_set, List.length_set, len_zeros, getD_zeros]
    norm_num
  have h3 : step (c10_st ((zeros.set 15000 1).set 15000 2) [0] input 2) =
      .cont (c10_st ((zeros.set 15000 1).set 15000 2) [0] input 3) := by
    rw [step_lbracket_nonzero (c10_st ((zeros.set 15000 1).set 15000 2) [0] input 2) ⟨((zeros.set 15000 1).set 15000 2), 15000⟩ 15000 rfl
        (ensure_initial ((zeros.set 15000 1).set 15000 2) 0 (by simp [List.length_set, len_zeros]) (by decide)) rfl
        (by rw [r3]; norm_num)]
    rfl
  have h4 : step (c10_st ((zeros.set 15000 1).set 15000 2) [0] input 3) =
      .cont (c10_st ((zeros.set 15000 1).set 15000 2) [1] input 4) := by
    rw [step_gt (c10_st ((zeros.set 15000 1).set 15000 2) [0] input 3) ⟨((zeros.set 15000 1).set 15000 2), 15000⟩ rfl
        (ensure_initial ((zeros.set 15000 1).set 15000 2) 1 (by simp [List.length_set, len_zeros]) (by decide))]
    rfl
  have r5 : Tape.read ⟨((zeros.set 15000 1).set 15000 2), 15000⟩ 15001 = 0 := by
    rw [read_mk]
    simp only [getD_set, List.length_set, len_zeros, getD_zeros]
    norm_num
  have h5 : step (c10_st ((zeros.set 15000 1).set 15000 2) [1] input 4) =
      .cont (c10_st (((zeros.set 15000 1).set 15000 2).set 15001 1) [1] input 5) := by
    rw [step_plus_root (c10_st ((zeros.set 15000 1).set 15000 2) [1] input 4) 15001 0 rfl rfl
        (ensure_initial ((zeros.set 15000 1).set 15000 2) 1 (by simp [List.length_set, len_zeros]) (by decide)) rfl r5]
    rfl
  have r6 : Tape.read ⟨(((zeros.set 15000 1).set 15000 2).set 15001 1), 15000⟩ 15001 = 1 := by
    rw [read_mk]
    simp only [getD_set, List.length_set, len_zeros, getD_zeros]
    norm_num
  have h6 : step (c10_st (((zeros.set 15000 1).set 15000 2).set 15001 1) [1] input 5) =
      .cont (c10_st ((((zeros.set 15000 1).set 15000 2).set 15001 1).set 15001 2) [1] input 6) := by
    rw [step_plus_root (c10_st (((zeros.set 15000 1).set 15000 2).set 15001 1) [1] input 5) 15001 1 rfl rfl
        (ensure_initial (((zeros.set 15000 1).set 15000 2).set 15001 1) 1 (by simp [List.length_set, len_zeros]) (by decide)) rfl r6]
    rfl
  have h7 : step (c10_st ((((zeros.set 15000 1).set 15000 2).set 15001 1).set 15001 2) [1] input 6) =
      .cont (c10_st ((((zeros.set 15000 1).set 15000 2).set 15001 1).set 15001 2) [0] input 7) := by
    rw [step_lt (c10_st ((((zeros.set 15000 1).set 15000 2).set 15001 1).set 15001 2) [1] input 6) ⟨((((zeros.set 15000 1).set 15000 2).set 15001 1).set 15001 2), 15000⟩ rfl
        (ensure_initial ((((zeros.set 15000 1).set 15000 2).set 15001 1).set 15001 2) 0 (by simp [List.length_set, len_zeros]) (by decide))]
    rfl
  have r8 : Tape.read ⟨((((zeros.set 15000 1).set 15000 2).set 15001 1).set 15001 2), 15000⟩ 15000 = 2 := by
    rw [read_mk]
    simp only [getD_set, List.length_set, len_zeros, getD_zeros]
    norm_num
  have h8 : step (c10_st ((((zeros.set 15000 1).set 15000 2).set 15001 1).set 15001 2) [0] input 7) =
      .cont (c10_st (((((zeros.set 15000 1).set 15000 2).set 15001 1).set 15001 2).set 15000 1) [0] input 8) := by
    rw [step_minus_root (c10_st ((((zeros.set 15000 1).set 15000 2).set 15001 1).set 15001 2) [0] input 7) 15000 2 rfl rfl
        (ensure_initial ((((zeros.set 15000 1).set 15000 2).set 15001 1).set 15001 2) 0 (by simp [List.length_set, len_zeros]) (by decide)) rfl r8]
    rfl
  have r9 : Tape.read ⟨(((((zeros.set 15000 1).set 15000 2).set 15001 1).set 15001 2).set 15000 1), 15000⟩ 15000 = 1 := by
    rw [read_mk]
    simp only [getD_set, List.length_set, len_zeros, getD_zeros]
    norm_num
  have h9 : step (c10_st (((((zeros.set 15000 1).set 15000 2).set 15001 1).set 15001 2).set 15000 1) [0] input 8) =
      .cont (c10_st (((((zeros.set 15000 1).set 15000 2).set 15001 1).set 15001 2).set 15000 1) [0] input 3) := by
    rw [step_rbracket_nonzero (c10_st (((((zeros.set 15000 1).set 15000 2).set 15001 1).set 15001 2).set 15000 1) [0] input 8) ⟨(((((zeros.set 15000 1).set 15000 2).set 15001 1).set 15001 2).set 15000 1), 15000⟩ 15000 2 rfl
        (ensure_initial (((((zeros.set 15000 1).set 15000 2).set 15001 1).set 15001 2).set 15000 1) 0 (by simp [List.length_set, len_zeros]) (by decide)) rfl
        (by rw [r9]; norm_num) rfl (by decide)]
    rfl
  have h10 : step (c10_st (((((zeros.set 15000 1).set 15000 2).set 15001 1).set 15001 2).set 15000 1) [0] input 3) =
      .cont (c10_st (((((zeros.set 15000 1).set 15000 2).set 15001 1).set 15001 2).set 15000 1) [1] input 4) := by
    rw [step_gt (c10_st (((((zeros.set 15000 1).set 15000 2).set 15001 1).set 15001 2).set 15000 1) [0] input 3) ⟨(((((zeros.set 15000 1).set 15000 2).set 15001 1).set 15001 2).set 15000 1), 15000⟩ rfl
        (ensure_initial (((((zeros.set 15000 1).set 15000 2).set 15001 1).set 15001 2).set 15000 1) 1 (by simp [List.length_set, len_zeros]) (by decide))]
    rfl
  have r11 : Tape.read ⟨(((((zeros.set 15000 1).set 15000 2).set 15001 1).set 15001 2).set 15000 1), 15000⟩ 15001 = 2 := by
    rw [read_mk]
    simp only [getD_set, List.length_set, len_zeros, getD_zeros]
    norm_num
  have h11 : step (c10_st (((((zeros.set 15000 1).set 15000 2).set 15001 1).set 15001 2).set 15000 1) [1] input 4) =
      .cont (c10_st ((((((zeros.set 15000 1).set 15000 2).set 15001 1).set 15001 2).set 15000 1).set 15001 3) [1] input 5) := by
    rw [step_plus_root (c10_st (((((zeros.set 15000 1).set 15000 2).set 15001 1).set 15001 2).set 15000 1) [1] input 4) 15001 2 rfl rfl
        (ensure_initial (((((zeros.set 15000 1).set 15000 2).set 15001 1).set 15001 2).set 15000 1) 1 (by simp [List.length_set, len_zeros]) (by decide)) rfl r11]
    rfl
  have r12 : Tape.read ⟨((((((zeros.set 15000 1).set 15000 2).set 15001 1).set 15001 2).set 15000 1).set 15001 3), 15000⟩ 15001 = 3 := by
    rw [read_mk]
    simp only [getD_set, List.length_set, len_zeros, getD_zeros]
    norm_num
  have h12 : step (c10_st ((((((zeros.set 15000 1).set 15000 2).set 15001 1).set 15001 2).set 15000 1).set 15001 3) [1] input 5) =
      .cont (c10_st (((((((zeros.set 15000 1).set 15000 2).set 15001 1).set 15001 2).set 15000 1).set 15001 3).set 15001 4) [1] input 6) := by
    rw [step_plus_root (c10_st ((((((zeros.set 15000 1).set 15000 2).set 15001 1).set 15001 2).set 15000 1).set 15001 3) [1] input 5) 15001 3 rfl rfl
        (ensure_initial ((((((zeros.set 15000 1).set 15000 2).set 15001 1).set 15001 2).set 15000 1).set 15001 3) 1 (by simp [List.length_set, len_zeros]) (by decide)) rfl r12]
    rfl
  have h13 : step (c10_st (((((((zeros.set 15000 1).set 15000 2).set 15001 1).set 15001 2).set 15000 1).set 15001 3).set 15001 4) [1] input 6) =
      .cont (c10_st (((((((zeros.set 15000 1).set 15000 2).set 15001 1).set 15001 2).set 15000 1).set 15001 3).set 15001 4) [0] input 7) := by
    rw [step_lt (c10_st (((((((zeros.set 15000 1).set 15000 2).set 15001 1).set 15001 2).set 15000 1).set 15001 3).set 15001 4) [1] input 6) ⟨(((((((zeros.set 15000 1).set 15000 2).set 15001 1).set 15001 2).set 15000 1).set 15001 3).set 15001 4), 15000⟩ rfl
        (ensure_initial (((((((zeros.set 15000 1).set 15000 2).set 15001 1).set 15001 2).set 15000 1).set 15001 3).set 15001 4) 0 (by simp [List.length_set, len_zeros]) (by decide))]
    rfl
  have r14 : Tape.read ⟨(((((((zeros.set 15000 1).set 15000 2).set 15001 1).set 15001 2).set 15000 1).set 15001 3).set 15001 4), 15000⟩ 15000 = 1 := by
    rw [read_mk]
    simp only [getD_set, List.length_set, len_zeros, getD_zeros]
    norm_num
  have h14 : step (c10_st (((((((zeros.set 15000 1).set 15000 2).set 15001 1).set 15001 2).set 15000 1).set 15001 3).set 15001 4) [0] input 7) =
      .cont (c10_st ((((((((zeros.set 15000 1).set 15000 2).set 15001 1).set 15001 2).set 15000 1).set 15001 3).set 15001 4).set 15000 0) [0] input 8) := by
    rw [step_minus_root (c10_st (((((((zeros.set 15000 1).set 15000 2).set 15001 1).set 15001 2).set 15000 1).set 15001 3).set 15001 4) [0] input 7) 15000 1 rfl rfl
        (ensure_initial (((((((zeros.set 15000 1).set 15000 2).set 15001 1).set 15001 2).set 15000 1).set 15001 3).set 15001 4) 0 (by simp [List.length_set, len_zeros]) (by decide)) rfl r14]
    rfl
  have r15 : Tape.read ⟨((((((((zeros.set 15000 1).set 15000 2).set 15001 1).set 15001 2).set 15000 1).set 15001 3).set 15001 4).set 15000 0), 15000⟩ 15000 = 0 := by
    rw [read_mk]
    simp only [getD_set, List.length_set, len_zeros, getD_zeros]
    norm_num
  have h15 : step (c10_st ((((((((zeros.set 15000 1).set 15000 2).set 15001 1).set 15001 2).set 15000 1).set 15001 3).set 15001 4).set 15000 0) [0] input 8) =
      .cont (c10_st ((((((((zeros.set 15000 1).set 15000 2).set 15001 1).set 15001 2).set 15000 1).set 15001 3).set 15001 4).set 15000 0) [0] input 9) := by
    rw [step_rbracket_zero (c10_st ((((((((zeros.set 15000 1).set 15000 2).set 15001 1).set 15001 2).set 15000 1).set 15001 3).set 15001 4).set 15000 0) [0] input 8) ⟨((((((((zeros.set 15000 1).set 15000 2).set 15001 1).set 15001 2).set 15000 1).set 15001 3).set 15001 4).set 15000 0), 15000⟩ 15000 rfl
        (ensure_initial ((((((((zeros.set 15000 1).set 15000 2).set 15001 1).set 15001 2).set 15000 1).set 15001 3).set 15001 4).set 15000 0) 0 (by simp [List.length_set, len_zeros]) (by decide)) rfl r15]
    rfl
  rw [runLoop_cont' (MAX_INSTRUCTIONS) (c10_st zeros [0] input 0)
      (c10_st (zeros.set 15000 1) [0] input 1)
      (by decide) (by show (0:Nat) < 9; norm_num) h1]
  rw [runLoop_cont' (MAX_INSTRUCTIONS - 1) (c10_st (zeros.set 15000 1) [0] input 1)
      (c10_st ((zeros.set 15000 1).set 15000 2) [0] input 2)
      (by decide) (by show (1:Nat) < 9; norm_num) h2]
  rw [runLoop_cont' (MAX_INSTRUCTIONS - 1 - 1) (c10_st ((zeros.set 15000 1).set 15000 2) [0] input 2)
      (c10_st ((zeros.set 15000 1).set 15000 2) [0] input 3)
      (by decide) (by show (2:Nat) < 9; norm_num) h3]
  rw [runLoop_cont' (MAX_INSTRUCTIONS - 1 - 1 - 1) (c10_st ((zeros.set 15000 1).set 15000 2) [0] input 3)
      (c10_st ((zeros.set 15000 1).set 15000 2) [1] input 4)
      (by decide) (by show (3:Nat) < 9; norm_num) h4]
  rw [runLoop_cont' (MAX_INSTRUCTIONS - 1 - 1 - 1 - 1) (c10_st ((zeros.set 15000 1).set 15000 2) [1] input 4)
      (c10_st (((zeros.set 15000 1).set 15000 2).set 15001 1) [1] input 5)
      (by decide) (by show (4:Nat) < 9; norm_num) h5]
  rw [runLoop_cont' (MAX_INSTRUCTIONS - 1 - 1 - 1 - 1 - 1) (c10_st (((zeros.set 15000 1).set 15000 2).set 15001 1) [1] input 5)
      (c10_st ((((zeros.set 15000 1).set 15000 2).set 15001 1).set 15001 2) [1] input 6)
      (by decide) (by show (5:Nat) < 9; norm_num) h6]
  rw [runLoop_cont' (MAX_INSTRUCTIONS - 1 - 1 - 1 - 1 - 1 - 1) (c10_st ((((zeros.set 15000 1).set 15000 2).set 15001 1).set 15001 2) [1] input 6)
      (c10_st ((((zeros.set 15000 1).set 15000 2).set 15001 1).set 15001 2) [0] input 7)
      (by decide) (by show (6:Nat) < 9; norm_num) h7]
  rw [runLoop_cont' (MAX_INSTRUCTIONS - 1 - 1 - 1 - 1 - 1 - 1 - 1) (c10_st ((((zeros.set 15000 1).set 15000 2).set 15001 1).set 15001 2) [0] input 7)
      (c10_st (((((zeros.set 15000 1).set 15000 2).set 15001 1).set 15001 2).set 15000 1) [0] input 8)
      (by decide) (by show (7:Nat) < 9; norm_num) h8]
  rw [runLoop_cont' (MAX_INSTRUCTIONS - 1 - 1 - 1 - 1 - 1 - 1 - 1 - 1) (c10_st (((((zeros.set 15000 1).set 15000 2).set 15001 1).set 15001 2).set 15000 1) [0] input 8)
      (c10_st (((((zeros.set 15000 1).set 15000 2).set 15001 1).set 15001 2).set 15000 1) [0] input 3)
      (by decide) (by show (8:Nat) < 9; norm_num) h9]
  rw [runLoop_cont' (MAX_INSTRUCTIONS - 1 - 1 - 1 - 1 - 1 - 1 - 1 - 1 - 1) (c10_st (((((zeros.set 15000 1).set 15000 2).set 15001 1).set 15001 2).set 15000 1) [0] input 3)
      (c10_st (((((zeros.set 15000 1).set 15000 2).set 15001 1).set 15001 2).set 15000 1) [1] input 4)
      (by decide) (by show (3:Nat) < 9; norm_num) h10]
  rw [runLoop_cont' (MAX_INSTRUCTIONS - 1 - 1 - 1 - 1 - 1 - 1 - 1 - 1 - 1 - 1) (c10_st (((((zeros.set 15000 1).set 15000 2).set 15001 1).set 15001 2).set 15000 1) [1] input 4)
      (c10_st ((((((zeros.set 15000 1).set 15000 2).set 15001 1).set 15001 2).set 15000 1).set 15001 3) [1] input 5)
      (by decide) (by show (4:Nat) < 9; norm_num) h11]
  rw [runLoop_cont' (MAX_INSTRUCTIONS - 1 - 1 - 1 - 1 - 1 - 1 - 1 - 1 - 1 - 1 - 1) (c10_st ((((((zeros.set 15000 1).set 15000 2).set 15001 1).set 15001 2).set 15000 1).set 15001 3) [1] input 5)
      (c10_st (((((((zeros.set 15000 1).set 15000 2).set 15001 1).set 15001 2).set 15000 1).set 15001 3).set 15001 4) [1] input 6)
      (by decide) (by show (5:Nat) < 9; norm_num) h12]
  rw [runLoop_cont' (MAX_INSTRUCTIONS - 1 - 1 - 1 - 1 - 1 - 1 - 1 - 1 - 1 - 1 - 1 - 1) (c10_st (((((((zeros.set 15000 1).set 15000 2).set 15001 1).set 15001 2).set 15000 1).set 15001 3).set 15001 4) [1] input 6)
      (c10_st (((((((zeros.set 15000 1).set 15000 2).set 15001 1).set 15001 2).set 15000 1).set 15001 3).set 15001 4) [0] input 7)
      (by decide) (by show (6:Nat) < 9; norm_num) h13]
  rw [runLoop_cont' (MAX_INSTRUCTIONS - 1 - 1 - 1 - 1 - 1 - 1 - 1 - 1 - 1 - 1 - 1 - 1 - 1) (c10_st (((((((zeros.set 15000 1).set 15000 2).set 15001 1).set 15001 2).set 15000 1).set 15001 3).set 15001 4) [0] input 7)
      (c10_st ((((((((zeros.set 15000 1).set 15000 2).set 15001 1).set 15001 2).set 15000 1).set 15001 3).set 15001 4).set 15000 0) [0] input 8)
      (by decide) (by show (7:Nat) < 9; norm_num) h14]
  rw [runLoop_cont' (MAX_INSTRUCTIONS - 1 - 1 - 1 - 1 - 1 - 1 - 1 - 1 - 1 - 1 - 1 - 1 - 1 - 1) (c10_st ((((((((zeros.set 15000 1).set 15000 2).set 15001 1).set 15001 2).set 15000 1).set 15001 3).set 15001 4).set 15000 0) [0] input 8)
      (c10_st ((((((((zeros.set 15000 1).set 15000 2).set 15001 1).set 15001 2).set 15000 1).set 15001 3).set 15001 4).set 15000 0) [0] input 9)
      (by decide) (by show (8:Nat) < 9; norm_num) h15]
  exact runLoop_done' (MAX_INSTRUCTIONS - 1 - 1 - 1 - 1 - 1 - 1 - 1 - 1 - 1 - 1 - 1 - 1 - 1 - 1 - 1) (c10_st ((((((((zeros.set 15000 1).set 15000 2).set 15001 1).set 15001 2).set 15000 1).set 15001 3).set 15001 4).set 15000 0) [0] input 9)
      (by decide) (by show ¬ (9:Nat) < 9; norm_num)


theorem run_ok (s s1 : St)
    (h : runLoop MAX_INSTRUCTIONS { s with pointer_stack := [0], ip := 0 } = .ok s1) :
    run s = .ok (forceClose s1) := by
  unfold run
  simp only [h]

theorem c10_run_full (input : List Nat) :
    run (c10_init input) = .ok (c10_st ((((((((zeros.set 15000 1).set 15000 2).set 15001 1).set 15001 2).set 15000 1).set 15001 3).set 15001 4).set 15000 0) [0] input 9) := by
  have h0 : runLoop MAX_INSTRUCTIONS
      { c10_init input with pointer_stack := [0], ip := 0 } =
      .ok (c10_st ((((((((zeros.set 15000 1).set 15000 2).set 15001 1).set 15001 2).set 15000 1).set 15001 3).set 15001 4).set 15000 0) [0] input 9) := c10_run input
  rw [run_ok _ _ h0]
  rw [forceClose_root _ (by simp [c10_st])]

theorem create_c10 (input : List Nat) :
    create_interpreter c10_src input = some (c10_init input) := rfl

/-- C10 counterexample: the claim says `++[>++<-]` produces four characters
of output, but the program contains no `.` command at all — the engine
terminates successfully with an empty output stream (here at the concrete
input stream `[]`). -/
theorem c10_output_counterexample :
    ∃ s s1, create_interpreter c10_src [] = some s ∧ run s = .ok s1 ∧
      ¬ s1.output.length = 4 :=
  ⟨c10_init [], c10_st ((((((((zeros.set 15000 1).set 15000 2).set 15001 1).set 15001 2).set 15000 1).set 15001 3).set 15001 4).set 15000 0) [0] [] 9, create_c10 [], c10_run_full [],
   by decide⟩

/-- C10 (amended): running the engine on `++[>++<-]` (with any input)
terminates successfully, produces NO output, and leaves the tape matching
the standard interpretation of the loop: the value 2 has been copied via
doubling into logical cell 1 (which holds 4) and cell 0 is 0. -/
theorem c10_doubling_loop (input : List Nat) :
    ∃ s s1, create_interpreter c10_src input = some s ∧ run s = .ok s1 ∧
      s1.output = [] ∧
      s1.tape.read (physIdx s1.tape.zero_offset 1) = 4 ∧
      s1.tape.read (physIdx s1.tape.zero_offset 0) = 0 := by
  refine ⟨c10_init input, c10_st ((((((((zeros.set 15000 1).set 15000 2).set 15001 1).set 15001 2).set 15000 1).set 15001 3).set 15001 4).set 15000 0) [0] input 9, create_c10 input,
    c10_run_full input, rfl, ?_, ?_⟩
  · show Tape.read ⟨((((((((zeros.set 15000 1).set 15000 2).set 15001 1).set 15001 2).set 15000 1).set 15001 3).set 15001 4).set 15000 0), 15000⟩ 15001 = 4
    rw [read_mk]
    simp only [getD_set, List.length_set, len_zeros, getD_zeros]
    norm_num
  · show Tape.read ⟨((((((((zeros.set 15000 1).set 15000 2).set 15001 1).set 15001 2).set 15000 1).set 15001 3).set 15001 4).set 15000 0), 15000⟩ 15000 = 0
    rw [read_mk]
    simp only [getD_set, List.length_set, len_zeros, getD_zeros]
    norm_num


/-! ## Claim C2: the capacity contract of `ensure_tape_capacity` -/

/-- C2: the claim states that whenever `ensure_tape_capacity(tape, i)`
returns success the physical index `zero_offset + i` lies in `[0, size)`.
The code violates this: on the tape `init_tape` builds at interpreter
start (size 30000, zero_offset 15000), the logical index -15001 lies one
cell left of the representable range; the function takes the
`required_physical_index = 0` placeholder path ("will be handled by
expansion"), but `0 >= size` is false, so no expansion happens and it
returns success with the tape entirely unchanged — while
`zero_offset + (-15001) = -1 < 0` is not addressable.  A subsequent cell
access computes the size_t index 2^64 - 1, far outside the backing
array. -/
theorem c2_ensure_capacity_negative_gap :
    ensure_tape_capacity initialTape (-15001) = some initialTape ∧
    (initialTape.zero_offset : Int) + (-15001) < 0 ∧
    initialTape.size = 30000 ∧
    physIdx initialTape.zero_offset (-15001) = 2 ^ 64 - 1 := by
  refine ⟨ensure_initial zeros (-15001) len_zeros (by norm_num), by decide,
    ?_, by decide⟩
  show (List.replicate 30000 (0 : Nat)).length = 30000
  exact List.length_replicate _ _

/-! ## Claim C8: scope-stack overflow and underflow are immediate fatal
errors -/

/-- C8: executing `{` when the scope stack already holds
`MAX_TEMP_DEPTH` (256) entries makes the step, and hence the run, fail
immediately with an error carrying the state entirely unchanged (in
particular the undo log is untouched); executing `}` while only the root
scope is open does the same.  Neither failure is retried: the dispatch
loop returns the error at once. -/
theorem c8_scope_depth_errors (s : St) :
    (s.code.getD s.ip ' ' = '{' → s.top + 1 ≥ MAX_TEMP_DEPTH →
      step s = .fatal s ∧ ∀ n, runLoop (n + 1) s = .error s) ∧
    (s.code.getD s.ip ' ' = '}' → s.pointer_stack.length = 1 →
      step s = .fatal s ∧ ∀ n, runLoop (n + 1) s = .error s) := by
  constructor
  · intro hc hge
    have hip : s.ip < s.code.length := by
      by_contra hnot
      rw [List.getD_eq_default _ _ (Nat.le_of_not_lt hnot)] at hc
      exact absurd hc (by decide)
    have hf := step_lbrace_fail s hc hge
    exact ⟨hf, fun n => runLoop_fatal n s s hip hf⟩
  · intro hc hlen
    have hip : s.ip < s.code.length := by
      by_contra hnot
      rw [List.getD_eq_default _ _ (Nat.le_of_not_lt hnot)] at hc
      exact absurd hc (by decide)
    have htop : s.top = 0 := by simp [St.top, hlen]
    have hf := step_rbrace_fail s hc htop
    exact ⟨hf, fun n => runLoop_fatal n s s hip hf⟩

/-- C8 witness: the overflow error at a concrete state with 256 open
scopes, and the underflow error at a concrete state with only the root
scope. -/
theorem c8_scope_depth_errors_witness :
    (step ovSt = .fatal ovSt ∧ runLoop 5 ovSt = .error ovSt) ∧
    (step unSt = .fatal unSt ∧ runLoop 5 unSt = .error unSt) := by
  have h1 := (c8_scope_depth_errors ovSt).1 rfl
    (by
      rw [St.top, show ovSt.pointer_stack = List.replicate 256 0 from rfl,
        List.length_replicate]
      decide)
  have h2 := (c8_scope_depth_errors unSt).2 rfl rfl
  exact ⟨⟨h1.1, h1.2 4⟩, ⟨h2.1, h2.2 4⟩⟩


/-! ## Frame lemmas for `log_undo_entry` -/

/-- `log_undo_entry` never touches the scope stack, the byte streams, the
instruction pointer or the code. -/
theorem log_undo_frame (s : St) (i : Int) :
    (log_undo_entry s i).pointer_stack = s.pointer_stack ∧
    (log_undo_entry s i).input = s.input ∧
    (log_undo_entry s i).output = s.output ∧
    (log_undo_entry s i).ip = s.ip ∧
    (log_undo_entry s i).code = s.code := by
  unfold log_undo_entry
  split_ifs <;> try exact ⟨rfl, rfl, rfl, rfl, rfl⟩
  all_goals cases ensure_tape_capacity s.tape i <;>
    exact ⟨rfl, rfl, rfl, rfl, rfl⟩

/-- When the tape already covers the index, `log_undo_entry` keeps it
unchanged. -/
theorem log_undo_tape_of_noop (s : St) (i : Int)
    (h : ensure_tape_capacity s.tape i = some s.tape) :
    (log_undo_entry s i).tape = s.tape := by
  unfold log_undo_entry
  split_ifs <;> try rfl
  all_goals rw [h]

/-! ## Claim C9: `,` at end of input stores the zero byte -/

/-- C9: executing `,` with the input exhausted stores the zero byte in the
current cell and execution continues normally (`ip` advances, no error);
with a byte available, that byte (taken mod 256) is stored.  The
hypotheses say the current index is addressable without growth. -/
theorem c9_eof_zero (s : St) (p : Nat)
    (hc : s.code.getD s.ip ' ' = ',')
    (hnov : ¬ (0 ≤ s.cur ∧ SIZE_MAX - s.cur.toNat < s.tape.zero_offset))
    (hreq : requiredPhys s.tape.zero_offset s.cur < s.tape.size)
    (hp : physIdx s.tape.zero_offset s.cur = p)
    (hploc : p < s.tape.size) :
    (s.input = [] → ∃ s1, step s = .cont s1 ∧ s1.tape.read p = 0 ∧
        s1.ip = s.ip + 1) ∧
    (∀ x xs, s.input = x :: xs → ∃ s1, step s = .cont s1 ∧
        s1.tape.read p = x % 256 ∧ s1.input = xs ∧ s1.ip = s.ip + 1) := by
  have he : ensure_tape_capacity s.tape s.cur = some s.tape :=
    ensure_noop s.tape s.cur hnov hreq
  constructor
  · intro hin
    have hst : ({ s with tape := s.tape, input := [] } : St) = s := by
      rw [← hin]
    refine ⟨_, step_comma_nil s s.tape hc hin he, ?_, rfl⟩
    show Tape.read _ p = 0
    rw [read_mk]
    rw [hst, hp, log_undo_tape_of_noop s s.cur he]
    rw [getD_set]
    rw [if_pos ⟨rfl, hploc⟩]
  · intro x xs hin
    refine ⟨_, step_comma_cons s s.tape x xs hc hin he, ?_, ?_, rfl⟩
    · show Tape.read _ p = x % 256
      have he2 : ensure_tape_capacity
          ({ s with tape := s.tape, input := xs } : St).tape s.cur =
          some ({ s with tape := s.tape, input := xs } : St).tape := he
      rw [read_mk, hp,
        log_undo_tape_of_noop { s with tape := s.tape, input := xs } s.cur he2]
      rw [getD_set]
      rw [if_pos ⟨rfl, hploc⟩]
    · show (log_undo_entry { s with tape := s.tape, input := xs } s.cur).input
          = xs
      exact (log_undo_frame _ _).2.1

/-- C9 witness: at the concrete state `c9St` (three-cell tape holding 5,
origin 1, root scope at index 0, one `,` to execute), an empty input makes
the step store 0, and the input `[65]` makes it store 65. -/
theorem c9_eof_zero_witness :
    ((c9St []).input = [] → ∃ s1, step (c9St []) = .cont s1 ∧
        s1.tape.read 1 = 0 ∧ s1.ip = 1) ∧
    (∀ x xs, (c9St [65]).input = x :: xs → ∃ s1, step (c9St [65]) = .cont s1 ∧
        s1.tape.read 1 = x % 256 ∧ s1.input = xs ∧ s1.ip = 1) :=
  ⟨(c9_eof_zero (c9St []) 1 rfl (by decide) (by decide) (by decide)
      (by decide)).1,
   (c9_eof_zero (c9St [65]) 1 rfl (by decide) (by decide) (by decide)
      (by decide)).2⟩


/-! ## Claim C7: how `ip` moves -/

theorem doGt_ip (s s1 : St) (h : doGt s = .cont s1) : s1.ip = s.ip + 1 := by
  unfold doGt at h
  cases he : ensure_tape_capacity s.tape (s.cur + 1) <;> rw [he] at h
  · exact StepOut.noConfusion h
  · cases h; rfl

theorem doLt_ip (s s1 : St) (h : doLt s = .cont s1) : s1.ip = s.ip + 1 := by
  unfold doLt at h
  cases he : ensure_tape_capacity s.tape (s.cur - 1) <;> rw [he] at h
  · exact StepOut.noConfusion h
  · cases h; rfl

theorem doPlus_ip (s s1 : St) (h : doPlus s = .cont s1) : s1.ip = s.ip + 1 := by
  unfold doPlus at h
  cases he : ensure_tape_capacity s.tape s.cur <;> rw [he] at h
  · exact StepOut.noConfusion h
  · cases h; rfl

theorem doMinus_ip (s s1 : St) (h : doMinus s = .cont s1) : s1.ip = s.ip + 1 := by
  unfold doMinus at h
  cases he : ensure_tape_capacity s.tape s.cur <;> rw [he] at h
  · exact StepOut.noConfusion h
  · cases h; rfl

theorem doDot_ip (s s1 : St) (h : doDot s = .cont s1) : s1.ip = s.ip + 1 := by
  unfold doDot at h
  cases he : ensure_tape_capacity s.tape s.cur <;> rw [he] at h
  · exact StepOut.noConfusion h
  · cases h; rfl

theorem doComma_ip (s s1 : St) (h : doComma s = .cont s1) : s1.ip = s.ip + 1 := by
  unfold doComma at h
  cases he : ensure_tape_capacity s.tape s.cur <;> rw [he] at h
  · exact StepOut.noConfusion h
  · cases hin : s.input <;> rw [hin] at h <;> (cases h; rfl)

theorem doLbrace_ip (s s1 : St) (h : doLbrace s = .cont s1) :
    s1.ip = s.ip + 1 := by
  unfold doLbrace at h
  split_ifs at h <;> first | exact StepOut.noConfusion h | (cases h; rfl)

theorem doRbrace_ip (s s1 : St) (h : doRbrace s = .cont s1) :
    s1.ip = s.ip + 1 := by
  unfold doRbrace at h
  split_ifs at h <;> first | exact StepOut.noConfusion h | (cases h; rfl)

theorem step_eq_doGt (s : St) (hc : s.code.getD s.ip ' ' = '>') :
    step s = doGt s := by
  unfold step
  rw [hc]
  rfl

theorem step_eq_doLt (s : St) (hc : s.code.getD s.ip ' ' = '<') :
    step s = doLt s := by
  unfold step
  rw [hc]
  rfl

theorem step_eq_doPlus (s : St) (hc : s.code.getD s.ip ' ' = '+') :
    step s = doPlus s := by
  unfold step
  rw [hc]
  rfl

theorem step_eq_doMinus (s : St) (hc : s.code.getD s.ip ' ' = '-') :
    step s = doMinus s := by
  unfold step
  rw [hc]
  rfl

theorem step_eq_doDot (s : St) (hc : s.code.getD s.ip ' ' = '.') :
    step s = doDot s := by
  unfold step
  rw [hc]
  rfl

theorem step_eq_doComma (s : St) (hc : s.code.getD s.ip ' ' = ',') :
    step s = doComma s := by
  unfold step
  rw [hc]
  rfl

theorem step_eq_doLb (s : St) (hc : s.code.getD s.ip ' ' = '[') :
    step s = doLb s := by
  unfold step
  rw [hc]
  rfl

theorem step_eq_doRb (s : St) (hc : s.code.getD s.ip ' ' = ']') :
    step s = doRb s := by
  unfold step
  rw [hc]
  rfl

theorem step_eq_doLbrace (s : St) (hc : s.code.getD s.ip ' ' = '{') :
    step s = doLbrace s := by
  unfold step
  rw [hc]
  rfl

theorem step_eq_doRbrace (s : St) (hc : s.code.getD s.ip ' ' = '}') :
    step s = doRbrace s := by
  unfold step
  rw [hc]
  rfl

theorem step_eq_other (s : St)
    (h1 : ¬ s.code.getD s.ip ' ' = '>') (h2 : ¬ s.code.getD s.ip ' ' = '<') (h3 : ¬ s.code.getD s.ip ' ' = '+') (h4 : ¬ s.code.getD s.ip ' ' = '-') (h5 : ¬ s.code.getD s.ip ' ' = '.') (h6 : ¬ s.code.getD s.ip ' ' = ',') (h7 : ¬ s.code.getD s.ip ' ' = '[') (h8 : ¬ s.code.getD s.ip ' ' = ']') (h9 : ¬ s.code.getD s.ip ' ' = '{') (h10 : ¬ s.code.getD s.ip ' ' = '}') :
    step s = .cont { s with ip := s.ip + 1 } := by
  unfold step
  rw [if_neg h1, if_neg h2, if_neg h3, if_neg h4, if_neg h5, if_neg h6,
    if_neg h7, if_neg h8, if_neg h9, if_neg h10]

/-- The `[` case returns a fatal error when the map holds no partner. -/
theorem step_lbracket_fatal (s : St) (t1 : Tape) (p : Nat)
    (hc : s.code.getD s.ip ' ' = '[')
    (he : ensure_tape_capacity s.tape s.cur = some t1)
    (hp : physIdx t1.zero_offset s.cur = p)
    (hz : t1.read p = 0)
    (hjt : s.bracket_map.getD s.ip (-1) = -1) :
    step s = .fatal { s with tape := t1 } := by
  unfold step
  rw [hc]
  change doLb s = _
  unfold doLb
  simp only [he, hp, hz, hjt]
  rw [if_pos trivial, if_pos trivial]

/-- The `]` case returns a fatal error when the map holds no partner. -/
theorem step_rbracket_fatal (s : St) (t1 : Tape) (p : Nat)
    (hc : s.code.getD s.ip ' ' = ']')
    (he : ensure_tape_capacity s.tape s.cur = some t1)
    (hp : physIdx t1.zero_offset s.cur = p)
    (hz : ¬ t1.read p = 0)
    (hjt : s.bracket_map.getD s.ip (-1) = -1) :
    step s = .fatal { s with tape := t1 } := by
  unfold step
  rw [hc]
  change doRb s = _
  unfold doRb
  simp only [he, hp, hjt]
  rw [if_pos hz, if_pos trivial]

/-- C7 (amended): after any successful non-jumping instruction (anything
but `[` and `]`), `ip` advances by exactly one.  When `[` executes with
the current cell zero, and when `]` executes with it non-zero, `ip` ends
up at `bracket_map[ip] + 1` — one PAST the partner bracket, because the
dispatch loop increments `ip` unconditionally after the `switch`; the
partner bracket itself is skipped, not re-fetched.  In the other bracket
cases execution falls through with `ip + 1`. -/
theorem c7_ip_advance (s s1 : St) (h : step s = .cont s1) :
    ((¬ s.code.getD s.ip ' ' = '[' ∧ ¬ s.code.getD s.ip ' ' = ']') →
      s1.ip = s.ip + 1) ∧
    (∀ t1 p, s.code.getD s.ip ' ' = '[' →
      ensure_tape_capacity s.tape s.cur = some t1 →
      physIdx t1.zero_offset s.cur = p →
      (t1.read p = 0 →
        s1.ip = (s.bracket_map.getD s.ip (-1)).toNat + 1) ∧
      (¬ t1.read p = 0 → s1.ip = s.ip + 1)) ∧
    (∀ t1 p, s.code.getD s.ip ' ' = ']' →
      ensure_tape_capacity s.tape s.cur = some t1 →
      physIdx t1.zero_offset s.cur = p →
      (¬ t1.read p = 0 →
        s1.ip = (s.bracket_map.getD s.ip (-1)).toNat + 1) ∧
      (t1.read p = 0 → s1.ip = s.ip + 1)) := by
  refine ⟨?_, ?_, ?_⟩
  · intro hnb
    by_cases h1 : s.code.getD s.ip ' ' = '>'
    · exact doGt_ip s s1 (step_eq_doGt s h1 ▸ h)
    by_cases g2 : s.code.getD s.ip ' ' = '<'
    · exact doLt_ip s s1 (step_eq_doLt s g2 ▸ h)
    by_cases g3 : s.code.getD s.ip ' ' = '+'
    · exact doPlus_ip s s1 (step_eq_doPlus s g3 ▸ h)
    by_cases g4 : s.code.getD s.ip ' ' = '-'
    · exact doMinus_ip s s1 (step_eq_doMinus s g4 ▸ h)
    by_cases g5 : s.code.getD s.ip ' ' = '.'
    · exact doDot_ip s s1 (step_eq_doDot s g5 ▸ h)
    by_cases g6 : s.code.getD s.ip ' ' = ','
    · exact doComma_ip s s1 (step_eq_doComma s g6 ▸ h)
    by_cases g9 : s.code.getD s.ip ' ' = '{'
    · exact doLbrace_ip s s1 (step_eq_doLbrace s g9 ▸ h)
    by_cases g10 : s.code.getD s.ip ' ' = '}'
    · exact doRbrace_ip s s1 (step_eq_doRbrace s g10 ▸ h)
    have h2 := step_eq_other s h1 g2 g3 g4 g5 g6 hnb.1 hnb.2 g9 g10 ▸ h
    cases h2
    rfl
  · intro t1 p hc he hp
    constructor
    · intro hz
      by_cases hjt : s.bracket_map.getD s.ip (-1) = -1
      · rw [step_lbracket_fatal s t1 p hc he hp hz hjt] at h
        exact StepOut.noConfusion h
      · rw [step_lbracket_zero s t1 p _ hc he hp hz rfl hjt] at h
        cases h; rfl
    · intro hz
      rw [step_lbracket_nonzero s t1 p hc he hp hz] at h
      cases h; rfl
  · intro t1 p hc he hp
    constructor
    · intro hz
      by_cases hjt : s.bracket_map.getD s.ip (-1) = -1
      · rw [step_rbracket_fatal s t1 p hc he hp hz hjt] at h
        exact StepOut.noConfusion h
      · rw [step_rbracket_nonzero s t1 p _ hc he hp hz rfl hjt] at h
        cases h; rfl
    · intro hz
      rw [step_rbracket_zero s t1 p hc he hp hz] at h
      cases h; rfl

theorem create_c7 : create_interpreter ['[', ']'] [] = some c7St := rfl

/-- C7 counterexample: the claim (following the spec) says a `[` seeing
zero sets `ip` directly to `bracket_map[ip]` so that the partner `]` is
re-tested.  On the program `[]` with the cell zero, `bracket_map[0] = 1`,
but after the step `ip` is 2 (one past the partner): the `]` is skipped,
never re-fetched. -/
theorem c7_jump_counterexample :
    ∃ s s1, create_interpreter ['[', ']'] [] = some s ∧
      step s = .cont s1 ∧ s.bracket_map.getD s.ip (-1) = 1 ∧
      ¬ s1.ip = 1 ∧ s1.ip = 2 := by
  refine ⟨c7St, _, create_c7,
    step_lbracket_zero c7St ⟨zeros, 15000⟩ 15000 1 rfl
      (ensure_initial zeros 0 len_zeros (by norm_num)) rfl
      (by rw [read_mk]; exact getD_zeros _) rfl (by decide),
    rfl, by decide, rfl⟩

/-- C7 witness: the amended statement applied to the concrete `[`-step of
the program `[]` with the cell zero. -/
theorem c7_ip_advance_witness :
    ∃ s1, step c7St = .cont s1 ∧
      s1.ip = ((c7St.bracket_map.getD c7St.ip (-1)).toNat + 1) := by
  have hstep : step c7St = .cont { c7St with tape := ⟨zeros, 15000⟩, ip := 2 } :=
    step_lbracket_zero c7St ⟨zeros, 15000⟩ 15000 1 rfl
      (ensure_initial zeros 0 len_zeros (by norm_num)) rfl
      (by rw [read_mk]; exact getD_zeros _) rfl (by decide)
  refine ⟨_, hstep, ?_⟩
  exact ((c7_ip_advance c7St _ hstep).2.1 ⟨zeros, 15000⟩ 15000 rfl
    (ensure_initial zeros 0 len_zeros (by norm_num)) rfl).1
    (by rw [read_mk]; exact getD_zeros _)


/-! ## Claims C4 and C1: silent failure of the undo log at its capacity cap -/

theorem find?_replicate_none (n : Nat) (e : UndoEntry) (pr : UndoEntry → Bool)
    (h : pr e = false) : (List.replicate n e).find? pr = none := by
  induction n with
  | zero => rfl
  | succ m ih => rw [List.replicate_succ]; rw [List.find?_cons, h]; exact ih

theorem restoreLoop_cons_eq (target : Nat) (e : UndoEntry)
    (rest : List UndoEntry) (t t1 : Tape) (hl : e.stack_level = target)
    (he : ensure_tape_capacity t e.logical_index = some t1) :
    restoreLoop target (e :: rest) t =
      restoreLoop target rest
        ⟨t1.cells.set (physIdx t1.zero_offset e.logical_index)
           e.original_value, t1.zero_offset⟩ := by
  conv_lhs => rw [restoreLoop]
  rw [if_pos hl, he]

/-- A `+` step whose undo recording is a no-op (for instance because the
log is at its cap): the cell is still incremented and the log untouched. -/
theorem step_plus_capfail (s : St) (p v : Nat)
    (hc : s.code.getD s.ip ' ' = '+')
    (hlog : log_undo_entry s s.cur = s)
    (he : ensure_tape_capacity s.tape s.cur = some s.tape)
    (hp : physIdx s.tape.zero_offset s.cur = p)
    (hv : s.tape.read p = v) :
    step s = .cont { s with
                     tape := ⟨s.tape.cells.set p ((v + 1) % 256),
                       s.tape.zero_offset⟩,
                     ip := s.ip + 1 } := by
  rw [step_plus s s.tape hc he]
  have hs : ({ s with tape := s.tape } : St) = s := rfl
  rw [hs, hlog, hp, hv]

/-- Restoring the cap-full log of `fullSt`: every entry writes the value 7
back to physical cell 1, which already holds 7, so the tape is left as it
is and the whole log is drained. -/
theorem restoreLoop_fullSt (n : Nat) :
    restoreLoop 1 (List.replicate n ⟨0, 7, 1⟩) ⟨[7, 7, 8], 1⟩ =
      ([], ⟨[7, 7, 8], 1⟩) := by
  induction n with
  | zero => rfl
  | succ m ih =>
    rw [List.replicate_succ, restoreLoop_cons_eq 1 _ _ _ ⟨[7, 7, 8], 1⟩ rfl
      (by decide)]
    change restoreLoop 1 (List.replicate m ⟨0, 7, 1⟩) ⟨[7, 7, 8], 1⟩ =
      ([], ⟨[7, 7, 8], 1⟩)
    exact ih

theorem restore_undo_eq (s : St) (log1 : List UndoEntry) (t1 : Tape)
    (h : restoreLoop s.top s.undo_log s.tape = (log1, t1)) :
    restore_undo_entries s = { s with undo_log := log1, tape := t1 } := by
  unfold restore_undo_entries
  rw [h]

/-- C4: when the undo log is at its hard cap (the doubled capacity would
exceed `4 * MAX_CODE_SIZE`), `log_undo_entry` returns without recording an
entry and without any error its caller could see, and the `+` mutation in
`run` still proceeds: the step succeeds, the cell changes, and the log is
exactly what it was. -/
theorem c4_log_exhaustion_silent (s : St) (idx : Int)
    (htop : ¬ s.top = 0)
    (hno : ¬ (s.undo_log.find? (undoBlocks idx s.top)).isSome = true)
    (hfull : s.undo_log.length ≥ s.undo_log_capacity)
    (hcap : capGrow s.undo_log_capacity > MAX_CODE_SIZE * 4) :
    log_undo_entry s idx = s ∧
    (∀ p v, s.code.getD s.ip ' ' = '+' → idx = s.cur →
      ensure_tape_capacity s.tape s.cur = some s.tape →
      physIdx s.tape.zero_offset s.cur = p → s.tape.read p = v →
      step s = .cont { s with
        tape := ⟨s.tape.cells.set p ((v + 1) % 256), s.tape.zero_offset⟩,
        ip := s.ip + 1 } ∧
      ¬ (v + 1) % 256 = v) := by
  have hlog : log_undo_entry s idx = s :=
    log_undo_cap_fail s idx htop (by simpa using hno) ⟨hfull, hcap⟩
  refine ⟨hlog, ?_⟩
  intro p v hc hidx he hp hv
  constructor
  · rw [step_plus s s.tape hc he]
    rw [show ({ s with tape := s.tape } : St) = s from rfl]
    rw [← hidx, hlog, hidx, hp, hv]
  · omega

/-- C4 witness: at the concrete state `fullSt` (undo log holding exactly
`4 * MAX_CODE_SIZE` entries for another cell, capacity at the cap, scope
level 1 open, `+` on a cell holding 7), the recorder appends nothing and
the step still bumps the cell to 8 with the log untouched. -/
theorem c4_log_exhaustion_silent_witness :
    log_undo_entry fullSt 1 = fullSt ∧
    step fullSt = .cont { fullSt with tape := ⟨[7, 7, 8], 1⟩, ip := 1 } := by
  have hno : ¬ (fullSt.undo_log.find? (undoBlocks 1 fullSt.top)).isSome
      = true := by
    rw [show fullSt.undo_log = List.replicate 262144 ⟨0, 7, 1⟩ from rfl,
      find?_replicate_none _ _ _ (by decide)]
    decide
  have hfull : fullSt.undo_log.length ≥ fullSt.undo_log_capacity := by
    rw [show fullSt.undo_log = List.replicate 262144 ⟨0, 7, 1⟩ from rfl,
      List.length_replicate]
    decide
  have h := c4_log_exhaustion_silent fullSt 1 (by decide) hno hfull (by decide)
  refine ⟨h.1, ?_⟩
  exact (h.2 2 7 rfl rfl (by decide) (by decide) (by decide)).1

/-- C1: a concrete demonstration that undo-log exhaustion silently breaks
the scope-rollback guarantee.  At `fullSt` the open scope level 1 mutates
the cell at logical index 1 (physical 2) from 7 to 8; because the log is
at its cap the mutation is unlogged, and when the `}` closes the scope the
restore drains the logged entries (all for another cell) but leaves this
cell at 8 — not the 7 it held when the scope was entered. -/
theorem c1_undo_cap_silent_break :
    ∃ s1 s2, step fullSt = .cont s1 ∧ s1.undo_log = fullSt.undo_log ∧
      step s1 = .cont s2 ∧ s2.pointer_stack = [0] ∧ s2.undo_log = [] ∧
      fullSt.tape.read 2 = 7 ∧ s2.tape.read 2 = 8 := by
  have hno : ¬ (fullSt.undo_log.find? (undoBlocks 1 fullSt.top)).isSome
      = true := by
    rw [show fullSt.undo_log = List.replicate 262144 ⟨0, 7, 1⟩ from rfl,
      find?_replicate_none _ _ _ (by decide)]
    decide
  have hfull : fullSt.undo_log.length ≥ fullSt.undo_log_capacity := by
    rw [show fullSt.undo_log = List.replicate 262144 ⟨0, 7, 1⟩ from rfl,
      List.length_replicate]
    decide
  have hlog : log_undo_entry fullSt 1 = fullSt :=
    log_undo_cap_fail fullSt 1 (by decide) (by simpa using hno)
      ⟨hfull, by decide⟩
  have h1 : step fullSt =
      .cont { fullSt with tape := ⟨[7, 7, 8], 1⟩, ip := 1 } :=
    step_plus_capfail fullSt 2 7 rfl hlog (by decide) (by decide) (by decide)
  have hrest : restore_undo_entries
      { fullSt with tape := ⟨[7, 7, 8], 1⟩, ip := 1 } =
      { fullSt with tape := ⟨[7, 7, 8], 1⟩, ip := 1, undo_log := [] } :=
    restore_undo_eq _ [] ⟨[7, 7, 8], 1⟩ (restoreLoop_fullSt 262144)
  have h2 : step { fullSt with tape := ⟨[7, 7, 8], 1⟩, ip := 1 } =
      .cont { fullSt with tape := ⟨[7, 7, 8], 1⟩, ip := 2, undo_log := [], pointer_stack := [0] } := by
    rw [step_rbrace_ok { fullSt with tape := ⟨[7, 7, 8], 1⟩, ip := 1 } rfl
      (by decide)]
    rw [hrest]
    rfl
  exact ⟨_, _, h1, rfl, h2, rfl, rfl, by decide, by decide⟩

/-! ## Claim C6: a scope is a transactional sandbox over the position -/

theorem doGt_stack (s s1 : St) (h : doGt s = .cont s1) :
    s1.pointer_stack = (s.cur + 1) :: s.pointer_stack.tail := by
  unfold doGt at h
  cases he : ensure_tape_capacity s.tape (s.cur + 1) <;> rw [he] at h
  · exact StepOut.noConfusion h
  · cases h; rfl

theorem doLt_stack (s s1 : St) (h : doLt s = .cont s1) :
    s1.pointer_stack = (s.cur - 1) :: s.pointer_stack.tail := by
  unfold doLt at h
  cases he : ensure_tape_capacity s.tape (s.cur - 1) <;> rw [he] at h
  · exact StepOut.noConfusion h
  · cases h; rfl

theorem doPlus_stack (s s1 : St) (h : doPlus s = .cont s1) :
    s1.pointer_stack = s.pointer_stack := by
  unfold doPlus at h
  cases he : ensure_tape_capacity s.tape s.cur <;> rw [he] at h
  · exact StepOut.noConfusion h
  · cases h; exact (log_undo_frame _ s.cur).1

theorem doMinus_stack (s s1 : St) (h : doMinus s = .cont s1) :
    s1.pointer_stack = s.pointer_stack := by
  unfold doMinus at h
  cases he : ensure_tape_capacity s.tape s.cur <;> rw [he] at h
  · exact StepOut.noConfusion h
  · cases h; exact (log_undo_frame _ s.cur).1

theorem doDot_stack (s s1 : St) (h : doDot s = .cont s1) :
    s1.pointer_stack = s.pointer_stack := by
  unfold doDot at h
  cases he : ensure_tape_capacity s.tape s.cur <;> rw [he] at h
  · exact StepOut.noConfusion h
  · cases h; rfl

theorem doComma_stack (s s1 : St) (h : doComma s = .cont s1) :
    s1.pointer_stack = s.pointer_stack := by
  unfold doComma at h
  cases he : ensure_tape_capacity s.tape s.cur <;> rw [he] at h
  · exact StepOut.noConfusion h
  · cases hin : s.input <;> rw [hin] at h <;>
      (cases h; exact (log_undo_frame _ s.cur).1)

theorem doLb_stack (s s1 : St) (h : doLb s = .cont s1) :
    s1.pointer_stack = s.pointer_stack := by
  unfold doLb at h
  cases he : ensure_tape_capacity s.tape s.cur with
  | none => rw [he] at h; exact StepOut.noConfusion h
  | some t1 =>
    rw [he] at h
    change (if t1.read (physIdx t1.zero_offset s.cur) = 0 then
        if s.bracket_map.getD s.ip (-1) = -1 then
          StepOut.fatal { s with tape := t1 }
        else
          StepOut.cont { s with tape := t1, ip := (s.bracket_map.getD s.ip (-1)).toNat + 1 }
      else StepOut.cont { s with tape := t1, ip := s.ip + 1 }) =
      StepOut.cont s1 at h
    split_ifs at h <;>
      first
        | exact StepOut.noConfusion h
        | (injection h with h1; rw [← h1])

theorem doRb_stack (s s1 : St) (h : doRb s = .cont s1) :
    s1.pointer_stack = s.pointer_stack := by
  unfold doRb at h
  cases he : ensure_tape_capacity s.tape s.cur with
  | none => rw [he] at h; exact StepOut.noConfusion h
  | some t1 =>
    rw [he] at h
    change (if ¬ t1.read (physIdx t1.zero_offset s.cur) = 0 then
        if s.bracket_map.getD s.ip (-1) = -1 then
          StepOut.fatal { s with tape := t1 }
        else
          StepOut.cont { s with tape := t1, ip := (s.bracket_map.getD s.ip (-1)).toNat + 1 }
      else StepOut.cont { s with tape := t1, ip := s.ip + 1 }) =
      StepOut.cont s1 at h
    split_ifs at h <;>
      first
        | exact StepOut.noConfusion h
        | (injection h with h1; rw [← h1])

theorem doLbrace_stack (s s1 : St) (h : doLbrace s = .cont s1) :
    s1.pointer_stack = s.cur :: s.pointer_stack := by
  unfold doLbrace at h
  split_ifs at h <;> first | exact StepOut.noConfusion h | (cases h; rfl)

theorem doRbrace_stack (s s1 : St) (h : doRbrace s = .cont s1) :
    s1.pointer_stack = s.pointer_stack.tail := by
  unfold doRbrace at h
  split_ifs at h <;> first | exact StepOut.noConfusion h | (cases h; rfl)

/-- Every continuing step either keeps the scope stack, rewrites its head
in place, pushes one entry (an opening brace), or pops one entry (a
closing brace). -/
theorem step_stack_shape (s s1 : St) (h : step s = .cont s1) :
    s1.pointer_stack = s.pointer_stack ∨
    (∃ y, s1.pointer_stack = y :: s.pointer_stack.tail) ∨
    s1.pointer_stack = s.cur :: s.pointer_stack ∨
    s1.pointer_stack = s.pointer_stack.tail := by
  by_cases h1 : s.code.getD s.ip ' ' = '>'
  · exact Or.inr (Or.inl ⟨s.cur + 1, doGt_stack s s1 (step_eq_doGt s h1 ▸ h)⟩)
  by_cases h2 : s.code.getD s.ip ' ' = '<'
  · exact Or.inr (Or.inl ⟨s.cur - 1, doLt_stack s s1 (step_eq_doLt s h2 ▸ h)⟩)
  by_cases h3 : s.code.getD s.ip ' ' = '+'
  · exact Or.inl (doPlus_stack s s1 (step_eq_doPlus s h3 ▸ h))
  by_cases h4 : s.code.getD s.ip ' ' = '-'
  · exact Or.inl (doMinus_stack s s1 (step_eq_doMinus s h4 ▸ h))
  by_cases h5 : s.code.getD s.ip ' ' = '.'
  · exact Or.inl (doDot_stack s s1 (step_eq_doDot s h5 ▸ h))
  by_cases h6 : s.code.getD s.ip ' ' = ','
  · exact Or.inl (doComma_stack s s1 (step_eq_doComma s h6 ▸ h))
  by_cases h7 : s.code.getD s.ip ' ' = '['
  · exact Or.inl (doLb_stack s s1 (step_eq_doLb s h7 ▸ h))
  by_cases h8 : s.code.getD s.ip ' ' = ']'
  · exact Or.inl (doRb_stack s s1 (step_eq_doRb s h8 ▸ h))
  by_cases h9 : s.code.getD s.ip ' ' = '{'
  · exact Or.inr (Or.inr (Or.inl (doLbrace_stack s s1
      (step_eq_doLbrace s h9 ▸ h))))
  by_cases h10 : s.code.getD s.ip ' ' = '}'
  · exact Or.inr (Or.inr (Or.inr (doRbrace_stack s s1
      (step_eq_doRbrace s h10 ▸ h))))
  rw [step_eq_other s h1 h2 h3 h4 h5 h6 h7 h8 h9 h10] at h
  cases h
  exact Or.inl rfl

/-- A continuing step never touches the bottom `L` stack entries as long as
more than `L` entries are present. -/
theorem step_stack_drop (s s1 : St) (L : Nat) (h : step s = .cont s1)
    (hL : L < s.pointer_stack.length) :
    s1.pointer_stack.drop (s1.pointer_stack.length - L) =
      s.pointer_stack.drop (s.pointer_stack.length - L) := by
  rcases step_stack_shape s s1 h with he | ⟨y, he⟩ | he | he
  · rw [he]
  · cases hs : s.pointer_stack with
    | nil => rw [hs] at hL; simp at hL
    | cons a t =>
      rw [hs] at he hL
      rw [he]
      simp only [List.tail_cons]
      have hL' : L < t.length + 1 := by simpa using hL
      have hd : (t.length + 1) - L = (t.length - L) + 1 := by omega
      rw [show (y :: t).length = t.length + 1 from rfl,
        show (a :: t).length = t.length + 1 from rfl, hd,
        List.drop_succ_cons, List.drop_succ_cons]
  · rw [he]
    have hd : s.pointer_stack.length + 1 - L =
        (s.pointer_stack.length - L) + 1 := by omega
    rw [show (s.cur :: s.pointer_stack).length =
        s.pointer_stack.length + 1 from rfl, hd, List.drop_succ_cons]
  · rw [he]
    cases hs : s.pointer_stack with
    | nil => rw [hs] at hL; simp at hL
    | cons a t =>
      rw [hs] at hL
      simp only [List.tail_cons]
      have hL' : L < t.length + 1 := by simpa using hL
      have hd : (t.length + 1) - L = (t.length - L) + 1 := by omega
      rw [show (a :: t).length = t.length + 1 from rfl, hd,
        List.drop_succ_cons]

theorem iterateCont_succ_cont (n : Nat) (s s1 : St)
    (h : step s = .cont s1) :
    iterateCont (n + 1) s = iterateCont n s1 := by
  conv_lhs => rw [iterateCont]
  rw [h]

theorem iterateCont_succ_fatal (n : Nat) (s s1 : St)
    (h : step s = .fatal s1) :
    iterateCont (n + 1) s = none := by
  conv_lhs => rw [iterateCont]
  rw [h]

/-- Along any error-free stretch of execution during which strictly more
than `L` scope entries stay on the stack, the bottom `L` entries are
untouched. -/
theorem iterateCont_stack_drop (n : Nat) (L : Nat) (s1 s2 : St)
    (h : iterateCont n s1 = some s2)
    (hd : ∀ k s', k ≤ n → iterateCont k s1 = some s' →
      L < s'.pointer_stack.length) :
    s2.pointer_stack.drop (s2.pointer_stack.length - L) =
      s1.pointer_stack.drop (s1.pointer_stack.length - L) := by
  induction n generalizing s1 with
  | zero =>
    have h' : s1 = s2 := Option.some.inj h
    rw [h']
  | succ m ih =>
    cases hst : step s1 with
    | fatal sx =>
      rw [iterateCont_succ_fatal m s1 sx hst] at h
      exact Option.noConfusion h
    | cont s1' =>
      rw [iterateCont_succ_cont m s1 s1' hst] at h
      have hL1 : L < s1.pointer_stack.length := hd 0 s1 (Nat.zero_le _) rfl
      have e1 := step_stack_drop s1 s1' L hst hL1
      have hd' : ∀ k s', k ≤ m → iterateCont k s1' = some s' →
          L < s'.pointer_stack.length := by
        intro k s' hk hit
        refine hd (k + 1) s' (by omega) ?_
        rw [iterateCont_succ_cont k s1 s1' hst]
        exact hit
      have e2 := ih s1' h hd'
      rw [e2, e1]

/-- C6: a scope is a transactional sandbox over the tape position.  If an
opening brace pushes a scope, the body runs without a fatal error while the
stack stays strictly deeper than the caller's, and the matching closing
brace (executed with exactly one entry above the caller's stack) continues,
then after the close the scope stack — and with it the current logical
position — is exactly what it was before the opening brace, and at every
point inside the scope the caller's stack entries (the enclosing scope's
entry included) were never modified. -/
theorem c6_position_reset (s s1 s2 s3 : St) (n : Nat)
    (hcmd : s.code.getD s.ip ' ' = '{')
    (hopen : step s = .cont s1)
    (hbody : iterateCont n s1 = some s2)
    (hdepth : ∀ k s', k ≤ n → iterateCont k s1 = some s' →
      s.pointer_stack.length < s'.pointer_stack.length)
    (hclose : s2.code.getD s2.ip ' ' = '}')
    (hlen2 : s2.pointer_stack.length = s.pointer_stack.length + 1)
    (hstep2 : step s2 = .cont s3) :
    s3.pointer_stack = s.pointer_stack ∧ s3.cur = s.cur ∧
    (∀ k s', k ≤ n → iterateCont k s1 = some s' →
      s'.pointer_stack.drop
        (s'.pointer_stack.length - s.pointer_stack.length) =
        s.pointer_stack) := by
  have hpush : s1.pointer_stack = s.cur :: s.pointer_stack :=
    doLbrace_stack s s1 (step_eq_doLbrace s hcmd ▸ hopen)
  have hdropbase : ∀ k s', k ≤ n → iterateCont k s1 = some s' →
      s'.pointer_stack.drop
        (s'.pointer_stack.length - s.pointer_stack.length) =
        s.pointer_stack := by
    intro k s' hk hit
    have e := iterateCont_stack_drop k s.pointer_stack.length s1 s' hit
      (fun j s'' hj hjt => hdepth j s'' (le_trans hj hk) hjt)
    rw [e, hpush]
    rw [show (s.cur :: s.pointer_stack).length =
        s.pointer_stack.length + 1 from rfl]
    rw [show s.pointer_stack.length + 1 - s.pointer_stack.length = 1 from
      by omega]
    rw [show (1 : Nat) = 0 + 1 from rfl, List.drop_succ_cons,
      List.drop_zero]
  have h2drop := hdropbase n s2 (le_refl n) hbody
  rw [hlen2] at h2drop
  rw [show s.pointer_stack.length + 1 - s.pointer_stack.length = 1 from
    by omega] at h2drop
  rw [List.drop_one] at h2drop
  have hpop : s3.pointer_stack = s2.pointer_stack.tail :=
    doRbrace_stack s2 s3 (step_eq_doRbrace s2 hclose ▸ hstep2)
  refine ⟨hpop.trans h2drop, ?_, hdropbase⟩
  show List.headD s3.pointer_stack 0 = List.headD s.pointer_stack 0
  rw [hpop, h2drop]

/-- C6 witness: on the four-command scope program of `c6St` from its
initial state, the scope opens at position 0, the body moves the position
to 2, and the close pops back to the root stack with the position again
0. -/
theorem c6_position_reset_witness :
    step { c6St with pointer_stack := [2, 0], ip := 3 } =
      .cont { c6St with pointer_stack := [0], ip := 4 } ∧
    ({ c6St with pointer_stack := [0], ip := 4 } : St).pointer_stack =
      c6St.pointer_stack ∧
    ({ c6St with pointer_stack := [0], ip := 4 } : St).cur = c6St.cur := by
  have h1 : step c6St =
      .cont { c6St with pointer_stack := [0, 0], ip := 1 } := by
    rw [step_lbrace_ok c6St rfl (by decide)]
    rfl
  have h2 : step { c6St with pointer_stack := [0, 0], ip := 1 } =
      .cont { c6St with pointer_stack := [1, 0], ip := 2 } := by
    rw [step_gt { c6St with pointer_stack := [0, 0], ip := 1 }
      ⟨zeros, 15000⟩ rfl (ensure_initial zeros _ len_zeros (by decide))]
    rfl
  have h3 : step { c6St with pointer_stack := [1, 0], ip := 2 } =
      .cont { c6St with pointer_stack := [2, 0], ip := 3 } := by
    rw [step_gt { c6St with pointer_stack := [1, 0], ip := 2 }
      ⟨zeros, 15000⟩ rfl (ensure_initial zeros _ len_zeros (by decide))]
    rfl
  have h4 : step { c6St with pointer_stack := [2, 0], ip := 3 } =
      .cont { c6St with pointer_stack := [0], ip := 4 } := by
    rw [step_rbrace_ok { c6St with pointer_stack := [2, 0], ip := 3 } rfl
      (by decide)]
    rfl
  have hbody : iterateCont 2 { c6St with pointer_stack := [0, 0], ip := 1 }
      = some { c6St with pointer_stack := [2, 0], ip := 3 } := by
    rw [iterateCont_succ_cont 1 _ _ h2, iterateCont_succ_cont 0 _ _ h3]
    rfl
  have hdepth : ∀ k s', k ≤ 2 →
      iterateCont k { c6St with pointer_stack := [0, 0], ip := 1 } =
        some s' →
      c6St.pointer_stack.length < s'.pointer_stack.length := by
    intro k s' hk hit
    interval_cases k
    · have h' := Option.some.inj hit
      rw [← h']
      decide
    · rw [iterateCont_succ_cont 0 _ _ h2] at hit
      have h' := Option.some.inj hit
      rw [← h']
      decide
    · rw [hbody] at hit
      have h' := Option.some.inj hit
      rw [← h']
      decide
  have main := c6_position_reset c6St
    { c6St with pointer_stack := [0, 0], ip := 1 }
    { c6St with pointer_stack := [2, 0], ip := 3 }
    { c6St with pointer_stack := [0], ip := 4 } 2
    rfl h1 hbody hdepth rfl (by decide) h4
  exact ⟨h4, main.1, main.2.1⟩

/-! ## Claim C3: correctness of the jump-table builder -/

theorem getD_setg {α : Type} (l : List α) (i j : Nat) (v d : α) :
    (l.set i v).getD j d =
      if i = j ∧ j < l.length then v else l.getD j d := by
  by_cases h : i = j ∧ j < l.length
  · obtain ⟨rfl, h2⟩ := h
    rw [if_pos ⟨rfl, h2⟩, List.getD_eq_getElem _ _ (by simpa using h2)]
    simp
  · rw [if_neg h]
    rcases Decidable.em (i = j) with rfl | hne
    · have h2 : ¬ i < l.length := fun hl => h ⟨rfl, hl⟩
      rw [List.getD_eq_default _ _ (by simpa using Nat.le_of_not_lt h2),
        List.getD_eq_default _ _ (Nat.le_of_not_lt h2)]
    · by_cases hj : j < l.length
      · rw [List.getD_eq_getElem _ _ (by simpa using hj),
          List.getD_eq_getElem _ _ hj]
        rw [List.getElem_set_ne hne]
      · rw [List.getD_eq_default _ _ (by simpa using Nat.le_of_not_lt hj),
          List.getD_eq_default _ _ (Nat.le_of_not_lt hj)]

theorem getD_of_drop (C : List Char) (i : Nat) (c : Char) (rest : List Char)
    (h : C.drop i = c :: rest) : C.getD i ' ' = c := by
  have h0 : (C.drop i).getD 0 ' ' = c := by rw [h]; rfl
  rw [List.getD_eq_getElem?_getD] at h0 ⊢
  rw [List.getElem?_drop] at h0
  simpa using h0

theorem drop_succ_of_drop (C : List Char) (i : Nat) (c : Char)
    (rest : List Char) (h : C.drop i = c :: rest) : C.drop (i + 1) = rest := by
  rw [← List.tail_drop, h]
  rfl

theorem matchedIn_intro (m : List Int) (p q : Nat)
    (h1 : m.getD p (-1) = (q : Int)) (h2 : m.getD q (-1) = (p : Int)) :
    matchedIn m p q := by
  unfold matchedIn
  exact ⟨h1, h2⟩

theorem goodAt_def (C : List Char) (bm cm : List Int) (q : Nat) :
    goodAt C bm cm q ↔
    ((C.getD q ' ' = '[' →
      ∃ p, q < p ∧ p < C.length ∧ C.getD p ' ' = ']' ∧ matchedIn bm q p) ∧
     (C.getD q ' ' = ']' →
      ∃ p, p < q ∧ C.getD p ' ' = '[' ∧ matchedIn bm q p) ∧
     (C.getD q ' ' = '{' →
      ∃ p, q < p ∧ p < C.length ∧ C.getD p ' ' = '}' ∧ matchedIn cm q p) ∧
     (C.getD q ' ' = '}' →
      ∃ p, p < q ∧ C.getD p ' ' = '{' ∧ matchedIn cm q p)) := Iff.rfl

/-! Unfolding equations for `buildMapsLoop` and `scanOkD`, one per command
character (all definitional). -/

theorem bml_nil (i : Nat) (stack : List (Nat × PairType)) (bm cm : List Int) :
    buildMapsLoop [] i stack bm cm =
      if stack.isEmpty then some (bm, cm) else none := rfl

theorem bml_lb (rest : List Char) (i : Nat) (stack : List (Nat × PairType))
    (bm cm : List Int) :
    buildMapsLoop ('[' :: rest) i stack bm cm =
      if stack.length + 1 > MAX_NESTING_DEPTH then none
      else buildMapsLoop rest (i + 1) ((i, .bracket) :: stack) bm cm := rfl

theorem bml_lc (rest : List Char) (i : Nat) (stack : List (Nat × PairType))
    (bm cm : List Int) :
    buildMapsLoop ('{' :: rest) i stack bm cm =
      if stack.length + 1 > MAX_NESTING_DEPTH then none
      else buildMapsLoop rest (i + 1) ((i, .brace) :: stack) bm cm := rfl

theorem bml_rb_nil (rest : List Char) (i : Nat) (bm cm : List Int) :
    buildMapsLoop (']' :: rest) i [] bm cm = none := rfl

theorem bml_rb_cons (rest : List Char) (i p : Nat) (ty : PairType)
    (stack1 : List (Nat × PairType)) (bm cm : List Int) :
    buildMapsLoop (']' :: rest) i ((p, ty) :: stack1) bm cm =
      if ty = PairType.bracket then
        buildMapsLoop rest (i + 1) stack1
          ((bm.set i (p : Int)).set p (i : Int)) cm
      else none := rfl

theorem bml_rc_nil (rest : List Char) (i : Nat) (bm cm : List Int) :
    buildMapsLoop ('}' :: rest) i [] bm cm = none := rfl

theorem bml_rc_cons (rest : List Char) (i p : Nat) (ty : PairType)
    (stack1 : List (Nat × PairType)) (bm cm : List Int) :
    buildMapsLoop ('}' :: rest) i ((p, ty) :: stack1) bm cm =
      if ty = PairType.brace then
        buildMapsLoop rest (i + 1) stack1 bm
          ((cm.set i (p : Int)).set p (i : Int))
      else none := rfl

theorem bml_other (c : Char) (rest : List Char) (i : Nat)
    (stack : List (Nat × PairType)) (bm cm : List Int)
    (h1 : ¬ c = '[') (h2 : ¬ c = '{') (h3 : ¬ c = ']') (h4 : ¬ c = '}') :
    buildMapsLoop (c :: rest) i stack bm cm =
      buildMapsLoop rest (i + 1) stack bm cm := by
  conv_lhs => unfold buildMapsLoop
  rw [if_neg h1, if_neg h2, if_neg h3, if_neg h4]

theorem sod_nil (stack : List PairType) :
    scanOkD [] stack = stack.isEmpty := rfl

theorem sod_lb (rest : List Char) (stack : List PairType) :
    scanOkD ('[' :: rest) stack =
      if stack.length + 1 > MAX_NESTING_DEPTH then false
      else scanOkD rest (.bracket :: stack) := rfl

theorem sod_lc (rest : List Char) (stack : List PairType) :
    scanOkD ('{' :: rest) stack =
      if stack.length + 1 > MAX_NESTING_DEPTH then false
      else scanOkD rest (.brace :: stack) := rfl

theorem sod_rb_nil (rest : List Char) :
    scanOkD (']' :: rest) [] = false := rfl

theorem sod_rb_bracket (rest : List Char) (s1 : List PairType) :
    scanOkD (']' :: rest) (PairType.bracket :: s1) = scanOkD rest s1 := rfl

theorem sod_rb_brace (rest : List Char) (s1 : List PairType) :
    scanOkD (']' :: rest) (PairType.brace :: s1) = false := rfl

theorem sod_rc_nil (rest : List Char) :
    scanOkD ('}' :: rest) [] = false := rfl

theorem sod_rc_brace (rest : List Char) (s1 : List PairType) :
    scanOkD ('}' :: rest) (PairType.brace :: s1) = scanOkD rest s1 := rfl

theorem sod_rc_bracket (rest : List Char) (s1 : List PairType) :
    scanOkD ('}' :: rest) (PairType.bracket :: s1) = false := rfl

theorem sod_other (c : Char) (rest : List Char) (stack : List PairType)
    (h1 : ¬ c = '[') (h2 : ¬ c = '{') (h3 : ¬ c = ']') (h4 : ¬ c = '}') :
    scanOkD (c :: rest) stack = scanOkD rest stack := by
  conv_lhs => unfold scanOkD
  rw [if_neg h1, if_neg h2, if_neg h3, if_neg h4]

/-- `build_maps` succeeds exactly when the depth-bounded two-family scan
accepts; the unified stack of the builder projects onto the scan's stack of
families. -/
theorem buildMapsLoop_isSome (code : List Char) :
    ∀ (i : Nat) (stack : List (Nat × PairType)) (bm cm : List Int),
    (buildMapsLoop code i stack bm cm).isSome =
      scanOkD code (stack.map Prod.snd) := by
  induction code with
  | nil =>
    intro i stack bm cm
    cases stack <;> rfl
  | cons c rest ih =>
    intro i stack bm cm
    by_cases h1 : c = '['
    · subst h1
      rw [bml_lb, sod_lb]
      by_cases hd : stack.length + 1 > MAX_NESTING_DEPTH
      · rw [if_pos hd, if_pos (by rw [List.length_map]; exact hd)]
        rfl
      · rw [if_neg hd, if_neg (by rw [List.length_map]; exact hd),
          ih (i + 1) ((i, .bracket) :: stack) bm cm]
        rfl
    · by_cases h2 : c = '{'
      · subst h2
        rw [bml_lc, sod_lc]
        by_cases hd : stack.length + 1 > MAX_NESTING_DEPTH
        · rw [if_pos hd, if_pos (by rw [List.length_map]; exact hd)]
          rfl
        · rw [if_neg hd, if_neg (by rw [List.length_map]; exact hd),
            ih (i + 1) ((i, .brace) :: stack) bm cm]
          rfl
      · by_cases h3 : c = ']'
        · subst h3
          cases stack with
          | nil => rfl
          | cons e stack1 =>
            obtain ⟨p, ty⟩ := e
            rw [bml_rb_cons]
            cases ty with
            | bracket =>
              rw [if_pos rfl, ih (i + 1) stack1 _ cm]
              rfl
            | brace =>
              rw [if_neg (by decide)]
              rfl
        · by_cases h4 : c = '}'
          · subst h4
            cases stack with
            | nil => rfl
            | cons e stack1 =>
              obtain ⟨p, ty⟩ := e
              rw [bml_rc_cons]
              cases ty with
              | bracket =>
                rw [if_neg (by decide)]
                rfl
              | brace =>
                rw [if_pos rfl, ih (i + 1) stack1 bm _]
                rfl
          · rw [bml_other c rest i stack bm cm h1 h2 h3 h4,
              sod_other c rest (stack.map Prod.snd) h1 h2 h3 h4,
              ih (i + 1) stack bm cm]

/-- The invariant proof for `buildMapsLoop`: on success, positions already
matched are recorded and never touched again, every entry still on the
stack will be matched by a later closer of its own family, and every
family position in the remaining code ends up bidirectionally matched. -/
theorem buildMapsLoop_spec (C : List Char) :
    ∀ (code : List Char) (i : Nat) (stack : List (Nat × PairType))
      (bm cm bm' cm' : List Int),
    C.drop i = code →
    bm.length = C.length → cm.length = C.length →
    List.Pairwise (fun a b => b.1 < a.1) stack →
    (∀ e, e ∈ stack → e.1 < i ∧ C.getD e.1 ' ' = openChar e.2) →
    buildMapsLoop code i stack bm cm = some (bm', cm') →
    ((∀ j, j < i → (∀ e, e ∈ stack → ¬ e.1 = j) →
        bm'.getD j (-1) = bm.getD j (-1) ∧
        cm'.getD j (-1) = cm.getD j (-1)) ∧
     (∀ e, e ∈ stack → ∃ q, i ≤ q ∧ q < C.length ∧
        C.getD q ' ' = closeChar e.2 ∧
        matchedIn (famMap e.2 bm' cm') e.1 q) ∧
     (∀ q, i ≤ q → q < C.length → goodAt C bm' cm' q)) := by
  intro code
  induction code with
  | nil =>
    intro i stack bm cm bm' cm' hdrop hbl hcl hpw hwf hrun
    cases stack with
    | cons e stack1 =>
      have hrun2 : (none : Option (List Int × List Int)) = some (bm', cm') :=
        hrun
      exact Option.noConfusion hrun2
    | nil =>
      have hrun2 : some (bm, cm) = some (bm', cm') := hrun
      injection hrun2 with h
      rw [Prod.mk.injEq] at h
      obtain ⟨hb, hc⟩ := h
      subst hb
      subst hc
      refine ⟨?_, ?_, ?_⟩
      · intro j hj hnot
        exact ⟨rfl, rfl⟩
      · intro e he
        exact absurd he (List.not_mem_nil e)
      · intro q hq1 hq2
        exfalso
        have hlen0 := congrArg List.length hdrop
        rw [List.length_drop] at hlen0
        simp at hlen0
        omega
  | cons c rest ih =>
    intro i stack bm cm bm' cm' hdrop hbl hcl hpw hwf hrun
    have hci : C.getD i ' ' = c := getD_of_drop C i c rest hdrop
    have hdrop1 : C.drop (i + 1) = rest := drop_succ_of_drop C i c rest hdrop
    have hlen0 := congrArg List.length hdrop
    rw [List.length_drop, List.length_cons] at hlen0
    have hilen : i < C.length := by omega
    by_cases h1 : c = '['
    · subst h1
      rw [bml_lb] at hrun
      by_cases hdep : stack.length + 1 > MAX_NESTING_DEPTH
      · rw [if_pos hdep] at hrun
        exact Option.noConfusion hrun
      rw [if_neg hdep] at hrun
      have hpw' : List.Pairwise (fun a b => b.1 < a.1)
          ((i, PairType.bracket) :: stack) := by
        refine List.Pairwise.cons ?_ hpw
        intro b hb
        exact (hwf b hb).1
      have hwf' : ∀ e, e ∈ (i, PairType.bracket) :: stack →
          e.1 < i + 1 ∧ C.getD e.1 ' ' = openChar e.2 := by
        intro e he
        rcases List.mem_cons.mp he with he | he
        · subst he
          exact ⟨by omega, hci⟩
        · obtain ⟨ha, hb⟩ := hwf e he
          exact ⟨by omega, hb⟩
      obtain ⟨f2, f3, f4⟩ := ih (i + 1) ((i, PairType.bracket) :: stack)
        bm cm bm' cm' hdrop1 hbl hcl hpw' hwf' hrun
      refine ⟨?_, ?_, ?_⟩
      · intro j hj hnot
        refine f2 j (by omega) ?_
        intro e he
        rcases List.mem_cons.mp he with he | he
        · subst he
          intro h
          have h' : i = j := h
          omega
        · exact hnot e he
      · intro e he
        obtain ⟨q, hq1, hq2, hq3, hq4⟩ := f3 e (List.mem_cons_of_mem _ he)
        exact ⟨q, by omega, hq2, hq3, hq4⟩
      · intro q hq1 hq2
        rcases Nat.eq_or_lt_of_le hq1 with heq | hlt
        · subst heq
          obtain ⟨q', hq'1, hq'2, hq'3, hq'4⟩ :=
            f3 (i, PairType.bracket) (List.mem_cons_self _ _)
          rw [goodAt_def]
          refine ⟨?_, ?_, ?_, ?_⟩
          · intro _
            exact ⟨q', by omega, hq'2, hq'3, hq'4⟩
          · intro hch
            rw [hci] at hch
            exact absurd hch (by decide)
          · intro hch
            rw [hci] at hch
            exact absurd hch (by decide)
          · intro hch
            rw [hci] at hch
            exact absurd hch (by decide)
        · exact f4 q (by omega) hq2
    · by_cases h2 : c = '{'
      · subst h2
        rw [bml_lc] at hrun
        by_cases hdep : stack.length + 1 > MAX_NESTING_DEPTH
        · rw [if_pos hdep] at hrun
          exact Option.noConfusion hrun
        rw [if_neg hdep] at hrun
        have hpw' : List.Pairwise (fun a b => b.1 < a.1)
            ((i, PairType.brace) :: stack) := by
          refine List.Pairwise.cons ?_ hpw
          intro b hb
          exact (hwf b hb).1
        have hwf' : ∀ e, e ∈ (i, PairType.brace) :: stack →
            e.1 < i + 1 ∧ C.getD e.1 ' ' = openChar e.2 := by
          intro e he
          rcases List.mem_cons.mp he with he | he
          · subst he
            exact ⟨by omega, hci⟩
          · obtain ⟨ha, hb⟩ := hwf e he
            exact ⟨by omega, hb⟩
        obtain ⟨f2, f3, f4⟩ := ih (i + 1) ((i, PairType.brace) :: stack)
          bm cm bm' cm' hdrop1 hbl hcl hpw' hwf' hrun
        refine ⟨?_, ?_, ?_⟩
        · intro j hj hnot
          refine f2 j (by omega) ?_
          intro e he
          rcases List.mem_cons.mp he with he | he
          · subst he
            intro h
            have h' : i = j := h
            omega
          · exact hnot e he
        · intro e he
          obtain ⟨q, hq1, hq2, hq3, hq4⟩ := f3 e (List.mem_cons_of_mem _ he)
          exact ⟨q, by omega, hq2, hq3, hq4⟩
        · intro q hq1 hq2
          rcases Nat.eq_or_lt_of_le hq1 with heq | hlt
          · subst heq
            obtain ⟨q', hq'1, hq'2, hq'3, hq'4⟩ :=
              f3 (i, PairType.brace) (List.mem_cons_self _ _)
            rw [goodAt_def]
            refine ⟨?_, ?_, ?_, ?_⟩
            · intro hch
              rw [hci] at hch
              exact absurd hch (by decide)
            · intro hch
              rw [hci] at hch
              exact absurd hch (by decide)
            · intro _
              exact ⟨q', by omega, hq'2, hq'3, hq'4⟩
            · intro hch
              rw [hci] at hch
              exact absurd hch (by decide)
          · exact f4 q (by omega) hq2
      · by_cases h3 : c = ']'
        · subst h3
          cases stack with
          | nil =>
            rw [bml_rb_nil] at hrun
            exact Option.noConfusion hrun
          | cons e stack1 =>
            obtain ⟨p, ty⟩ := e
            rw [bml_rb_cons] at hrun
            cases ty with
            | brace =>
              rw [if_neg (by decide)] at hrun
              exact Option.noConfusion hrun
            | bracket =>
              rw [if_pos rfl] at hrun
              have hp_lt : p < i :=
                (hwf (p, PairType.bracket) (List.mem_cons_self _ _)).1
              have hp_ch : C.getD p ' ' = '[' :=
                (hwf (p, PairType.bracket) (List.mem_cons_self _ _)).2
              have hs1 := (List.pairwise_cons.mp hpw).1
              have hpw1 : List.Pairwise (fun a b => b.1 < a.1) stack1 :=
                hpw.of_cons
              have hwf1 : ∀ e, e ∈ stack1 →
                  e.1 < i + 1 ∧ C.getD e.1 ' ' = openChar e.2 := by
                intro e he
                obtain ⟨ha, hb⟩ := hwf e (List.mem_cons_of_mem _ he)
                exact ⟨by omega, hb⟩
              have hbl2 : ((bm.set i (p : Int)).set p (i : Int)).length =
                  C.length := by
                rw [List.length_set, List.length_set]
                exact hbl
              obtain ⟨f2, f3, f4⟩ := ih (i + 1) stack1
                ((bm.set i (p : Int)).set p (i : Int)) cm bm' cm'
                hdrop1 hbl2 hcl hpw1 hwf1 hrun
              have hbm2_i : ((bm.set i (p : Int)).set p (i : Int)).getD i
                  (-1) = (p : Int) := by
                rw [getD_setg, if_neg (fun hc => absurd hc.1 (by omega)),
                  getD_setg, if_pos ⟨rfl, by rw [hbl]; exact hilen⟩]
              have hbm2_p : ((bm.set i (p : Int)).set p (i : Int)).getD p
                  (-1) = (i : Int) := by
                rw [getD_setg,
                  if_pos ⟨rfl, by rw [List.length_set, hbl]; omega⟩]
              have hbm2_other : ∀ j, ¬ j = i → ¬ j = p →
                  ((bm.set i (p : Int)).set p (i : Int)).getD j (-1) =
                    bm.getD j (-1) := by
                intro j hji hjp
                rw [getD_setg, if_neg (fun hc => hjp hc.1.symm),
                  getD_setg, if_neg (fun hc => hji hc.1.symm)]
              have hi_not : ∀ e, e ∈ stack1 → ¬ e.1 = i := by
                intro e he h
                have h1 : e.1 < p := hs1 e he
                omega
              have hp_not : ∀ e, e ∈ stack1 → ¬ e.1 = p := by
                intro e he h
                have h1 : e.1 < p := hs1 e he
                omega
              have hbmi' : bm'.getD i (-1) = (p : Int) := by
                have h := (f2 i (by omega) hi_not).1
                rw [h, hbm2_i]
              have hbmp' : bm'.getD p (-1) = (i : Int) := by
                have h := (f2 p (by omega) hp_not).1
                rw [h, hbm2_p]
              refine ⟨?_, ?_, ?_⟩
              · intro j hj hnot
                have hpj : ¬ p = j :=
                  hnot (p, PairType.bracket) (List.mem_cons_self _ _)
                obtain ⟨e2b, e2c⟩ :=
                  f2 j (by omega) (fun e he => hnot e
                    (List.mem_cons_of_mem _ he))
                constructor
                · rw [e2b, hbm2_other j (by omega) (fun h => hpj h.symm)]
                · exact e2c
              · intro e he
                rcases List.mem_cons.mp he with he | he
                · subst he
                  exact ⟨i, le_refl i, hilen, hci,
                    matchedIn_intro bm' p i hbmp' hbmi'⟩
                · obtain ⟨q, hq1, hq2, hq3, hq4⟩ := f3 e he
                  exact ⟨q, by omega, hq2, hq3, hq4⟩
              · intro q hq1 hq2
                rcases Nat.eq_or_lt_of_le hq1 with heq | hlt
                · subst heq
                  rw [goodAt_def]
                  refine ⟨?_, ?_, ?_, ?_⟩
                  · intro hch
                    rw [hci] at hch
                    exact absurd hch (by decide)
                  · intro _
                    exact ⟨p, hp_lt, hp_ch,
                      matchedIn_intro bm' i p hbmi' hbmp'⟩
                  · intro hch
                    rw [hci] at hch
                    exact absurd hch (by decide)
                  · intro hch
                    rw [hci] at hch
                    exact absurd hch (by decide)
                · exact f4 q (by omega) hq2
        · by_cases h4 : c = '}'
          · subst h4
            cases stack with
            | nil =>
              rw [bml_rc_nil] at hrun
              exact Option.noConfusion hrun
            | cons e stack1 =>
              obtain ⟨p, ty⟩ := e
              rw [bml_rc_cons] at hrun
              cases ty with
              | bracket =>
                rw [if_neg (by decide)] at hrun
                exact Option.noConfusion hrun
              | brace =>
                rw [if_pos rfl] at hrun
                have hp_lt : p < i :=
                  (hwf (p, PairType.brace) (List.mem_cons_self _ _)).1
                have hp_ch : C.getD p ' ' = '{' :=
                  (hwf (p, PairType.brace) (List.mem_cons_self _ _)).2
                have hs1 := (List.pairwise_cons.mp hpw).1
                have hpw1 : List.Pairwise (fun a b => b.1 < a.1) stack1 :=
                  hpw.of_cons
                have hwf1 : ∀ e, e ∈ stack1 →
                    e.1 < i + 1 ∧ C.getD e.1 ' ' = openChar e.2 := by
                  intro e he
                  obtain ⟨ha, hb⟩ := hwf e (List.mem_cons_of_mem _ he)
                  exact ⟨by omega, hb⟩
                have hcl2 : ((cm.set i (p : Int)).set p (i : Int)).length =
                    C.length := by
                  rw [List.length_set, List.length_set]
                  exact hcl
                obtain ⟨f2, f3, f4⟩ := ih (i + 1) stack1 bm
                  ((cm.set i (p : Int)).set p (i : Int)) bm' cm'
                  hdrop1 hbl hcl2 hpw1 hwf1 hrun
                have hcm2_i : ((cm.set i (p : Int)).set p (i : Int)).getD i
                    (-1) = (p : Int) := by
                  rw [getD_setg, if_neg (fun hc => absurd hc.1 (by omega)),
                    getD_setg, if_pos ⟨rfl, by rw [hcl]; exact hilen⟩]
                have hcm2_p : ((cm.set i (p : Int)).set p (i : Int)).getD p
                    (-1) = (i : Int) := by
                  rw [getD_setg,
                    if_pos ⟨rfl, by rw [List.length_set, hcl]; omega⟩]
                have hcm2_other : ∀ j, ¬ j = i → ¬ j = p →
                    ((cm.set i (p : Int)).set p (i : Int)).getD j (-1) =
                      cm.getD j (-1) := by
                  intro j hji hjp
                  rw [getD_setg, if_neg (fun hc => hjp hc.1.symm),
                    getD_setg, if_neg (fun hc => hji hc.1.symm)]
                have hi_not : ∀ e, e ∈ stack1 → ¬ e.1 = i := by
                  intro e he h
                  have h1 : e.1 < p := hs1 e he
                  omega
                have hp_not : ∀ e, e ∈ stack1 → ¬ e.1 = p := by
                  intro e he h
                  have h1 : e.1 < p := hs1 e he
                  omega
                have hcmi' : cm'.getD i (-1) = (p : Int) := by
                  have h := (f2 i (by omega) hi_not).2
                  rw [h, hcm2_i]
                have hcmp' : cm'.getD p (-1) = (i : Int) := by
                  have h := (f2 p (by omega) hp_not).2
                  rw [h, hcm2_p]
                refine ⟨?_, ?_, ?_⟩
                · intro j hj hnot
                  have hpj : ¬ p = j :=
                    hnot (p, PairType.brace) (List.mem_cons_self _ _)
                  obtain ⟨e2b, e2c⟩ :=
                    f2 j (by omega) (fun e he => hnot e
                      (List.mem_cons_of_mem _ he))
                  constructor
                  · exact e2b
                  · rw [e2c, hcm2_other j (by omega) (fun h => hpj h.symm)]
                · intro e he
                  rcases List.mem_cons.mp he with he | he
                  · subst he
                    exact ⟨i, le_refl i, hilen, hci,
                      matchedIn_intro cm' p i hcmp' hcmi'⟩
                  · obtain ⟨q, hq1, hq2, hq3, hq4⟩ := f3 e he
                    exact ⟨q, by omega, hq2, hq3, hq4⟩
                · intro q hq1 hq2
                  rcases Nat.eq_or_lt_of_le hq1 with heq | hlt
                  · subst heq
                    rw [goodAt_def]
                    refine ⟨?_, ?_, ?_, ?_⟩
                    · intro hch
                      rw [hci] at hch
                      exact absurd hch (by decide)
                    · intro hch
                      rw [hci] at hch
                      exact absurd hch (by decide)
                    · intro hch
                      rw [hci] at hch
                      exact absurd hch (by decide)
                    · intro _
                      exact ⟨p, hp_lt, hp_ch,
                        matchedIn_intro cm' i p hcmi' hcmp'⟩
                  · exact f4 q (by omega) hq2
          · rw [bml_other c rest i stack bm cm h1 h2 h3 h4] at hrun
            have hwf1 : ∀ e, e ∈ stack →
                e.1 < i + 1 ∧ C.getD e.1 ' ' = openChar e.2 := by
              intro e he
              obtain ⟨ha, hb⟩ := hwf e he
              exact ⟨by omega, hb⟩
            obtain ⟨f2, f3, f4⟩ := ih (i + 1) stack bm cm bm' cm'
              hdrop1 hbl hcl hpw hwf1 hrun
            refine ⟨?_, ?_, ?_⟩
            · intro j hj hnot
              exact f2 j (by omega) hnot
            · intro e he
              obtain ⟨q, hq1, hq2, hq3, hq4⟩ := f3 e he
              exact ⟨q, by omega, hq2, hq3, hq4⟩
            · intro q hq1 hq2
              rcases Nat.eq_or_lt_of_le hq1 with heq | hlt
              · subst heq
                rw [goodAt_def]
                refine ⟨?_, ?_, ?_, ?_⟩
                · intro hch
                  rw [hci] at hch
                  exact absurd hch h1
                · intro hch
                  rw [hci] at hch
                  exact absurd hch h3
                · intro hch
                  rw [hci] at hch
                  exact absurd hch h2
                · intro hch
                  rw [hci] at hch
                  exact absurd hch h4
              · exact f4 q (by omega) hq2

/-- C3 (amended): `build_maps` succeeds if and only if the depth-bounded
scan accepts — every `]` closes the nearest unclosed opener and that
opener is a `[`, every `\x7d` closes the nearest unclosed opener and that
opener is a `\x7b`, nothing is left unclosed, and no 1025th simultaneous
scope is opened — and on success every bracket and brace position has its
partner of the right family recorded bidirectionally in that family's
table. -/
theorem c3_build_maps_correct (code : List Char) :
    ((build_maps code).isSome = scanOkD code []) ∧
    ∀ bm cm, build_maps code = some (bm, cm) →
      ∀ q, q < code.length → goodAt code bm cm q := by
  constructor
  · unfold build_maps
    exact buildMapsLoop_isSome code 0 [] _ _
  · intro bm cm hrun q hq
    unfold build_maps at hrun
    obtain ⟨f2, f3, f4⟩ := buildMapsLoop_spec code code 0 []
      (List.replicate code.length (-1)) (List.replicate code.length (-1))
      bm cm rfl (List.length_replicate _ _) (List.length_replicate _ _)
      List.Pairwise.nil (fun e he => absurd he (List.not_mem_nil e)) hrun
    exact f4 q (Nat.zero_le q) hq

/-- C3 witness: on the accepted program `[\x7b\x7d]`, `build_maps` succeeds
with the scan accepting, and position 0 (the `[`) is matched with position
3 (the `]`) in both directions of the bracket table. -/
theorem c3_build_maps_correct_witness :
    ((build_maps ['[', '{', '}', ']']).isSome =
      scanOkD ['[', '{', '}', ']'] []) ∧
    goodAt ['[', '{', '}', ']'] [3, -1, -1, 0] [-1, 2, 1, -1] 0 := by
  have h := c3_build_maps_correct ['[', '{', '}', ']']
  exact ⟨h.1, h.2 [3, -1, -1, 0] [-1, 2, 1, -1] (by decide) 0 (by decide)⟩

/-! The counterexample to the claim as stated: the claim's scan (no depth
bound) accepts 1025 nested brackets, the code rejects them. -/

theorem scanOk_lb (rest : List Char) (stack : List PairType) :
    scanOk ('[' :: rest) stack = scanOk rest (PairType.bracket :: stack) :=
  rfl

theorem scanOk_rb_bracket (rest : List Char) (stack : List PairType) :
    scanOk (']' :: rest) (PairType.bracket :: stack) = scanOk rest stack :=
  rfl

theorem scanOk_opens (n : Nat) (rest : List Char) :
    ∀ stack, scanOk (List.replicate n '[' ++ rest) stack =
      scanOk rest (List.replicate n PairType.bracket ++ stack) := by
  induction n with
  | zero => intro stack; rfl
  | succ m ih =>
    intro stack
    rw [List.replicate_succ, List.cons_append, scanOk_lb,
      ih (PairType.bracket :: stack), List.replicate_succ',
      List.append_assoc, List.singleton_append]

theorem scanOk_closes (n : Nat) :
    scanOk (List.replicate n ']') (List.replicate n PairType.bracket) =
      true := by
  induction n with
  | zero => rfl
  | succ m ih =>
    rw [List.replicate_succ, List.replicate_succ, scanOk_rb_bracket]
    exact ih

/-- A run of openers long enough to overflow the builder's fixed nesting
stack makes `buildMapsLoop` fail no matter what follows. -/
theorem bml_depth_all_open (n : Nat) :
    ∀ (rest : List Char) (i : Nat) (stack : List (Nat × PairType))
      (bm cm : List Int),
    1025 ≤ stack.length + n → stack.length ≤ 1024 →
    buildMapsLoop (List.replicate n '[' ++ rest) i stack bm cm = none := by
  induction n with
  | zero =>
    intro rest i stack bm cm hA hB
    exact absurd hA (by omega)
  | succ m ih =>
    intro rest i stack bm cm hA hB
    rw [List.replicate_succ, List.cons_append, bml_lb]
    by_cases hd : stack.length + 1 > MAX_NESTING_DEPTH
    · rw [if_pos hd]
    · rw [if_neg hd]
      simp only [MAX_NESTING_DEPTH] at hd
      refine ih rest (i + 1) ((i, PairType.bracket) :: stack) bm cm ?_ ?_
      · simp only [List.length_cons]
        omega
      · simp only [List.length_cons]
        omega

/-- C3 counterexample: 1025 nested brackets.  The claim's own scan (no
depth bound) accepts the program, but `build_maps` rejects it: the
builder's fixed 1024-entry stack overflows on the 1025th opener. -/
theorem c3_depth_counterexample :
    scanOk deepProg [] = true ∧ build_maps deepProg = none := by
  constructor
  · rw [show deepProg = List.replicate 1025 '[' ++ List.replicate 1025 ']'
      from rfl]
    rw [scanOk_opens 1025 (List.replicate 1025 ']') [], List.append_nil]
    exact scanOk_closes 1025
  · unfold build_maps
    exact bml_depth_all_open 1025 (List.replicate 1025 ']') 0 [] _ _
      (by decide) (by decide)

/-! ## Claim C5: first-write capture of the undo log -/

/-- C5 (amended): first-write capture as the code actually provides it.
With a scope open: an existing blocking entry makes `log_undo_entry` a
no-op; when no blocking entry exists, the log is not at its hard cap, and
the tape ensure succeeds, exactly one entry is appended recording the
cell's value before the mutation, tagged with the current level; and the
at-most-one-entry-per-`(logical_index, level)` invariant is preserved. -/
theorem c5_first_write_capture (s : St) (idx : Int) (htop : ¬ s.top = 0) :
    (((s.undo_log.find? (undoBlocks idx s.top)).isSome = true) →
        log_undo_entry s idx = s) ∧
    (∀ t1, ¬ (s.undo_log.find? (undoBlocks idx s.top)).isSome = true →
       ¬ (s.undo_log.length ≥ s.undo_log_capacity ∧
          capGrow s.undo_log_capacity > MAX_CODE_SIZE * 4) →
       ensure_tape_capacity s.tape idx = some t1 →
       (log_undo_entry s idx).undo_log =
         ⟨idx, t1.read (physIdx t1.zero_offset idx), s.top⟩ ::
           s.undo_log) ∧
    (List.Pairwise
        (fun e1 e2 => ¬ (e1.logical_index = e2.logical_index ∧
          e1.stack_level = e2.stack_level)) s.undo_log →
      List.Pairwise
        (fun e1 e2 => ¬ (e1.logical_index = e2.logical_index ∧
          e1.stack_level = e2.stack_level))
        (log_undo_entry s idx).undo_log) := by
  refine ⟨?_, ?_, ?_⟩
  · intro h
    exact log_undo_blocked s idx htop (by simpa using h)
  · intro t1 h1 h2 he
    rw [log_undo_append s idx t1 htop (by simpa using h1) h2 he]
  · intro hpw
    unfold log_undo_entry
    rw [if_neg htop]
    by_cases hB : (s.undo_log.find? (undoBlocks idx s.top)).isSome = true
    · rw [if_pos hB]
      exact hpw
    rw [if_neg hB]
    by_cases hC : s.undo_log.length ≥ s.undo_log_capacity ∧
        capGrow s.undo_log_capacity > MAX_CODE_SIZE * 4
    · rw [if_pos hC]
      exact hpw
    rw [if_neg hC]
    cases he : ensure_tape_capacity s.tape idx with
    | none => exact hpw
    | some t1 =>
      refine List.Pairwise.cons ?_ hpw
      intro e he2 hcon
      have hnone : s.undo_log.find? (undoBlocks idx s.top) = none :=
        Option.not_isSome_iff_eq_none.mp hB
      have hblock := List.find?_eq_none.mp hnone e he2
      apply hblock
      have hidx : idx = e.logical_index := hcon.1
      have hlvl : s.top = e.stack_level := hcon.2
      unfold undoBlocks
      simp only [decide_eq_true_eq]
      exact ⟨hidx.symm, by omega⟩

/-- C5 witness: on a small state with an open scope, an empty log and the
cell at logical index 0 holding 5, the recorder appends exactly the entry
`(0, 5, level 1)` and the uniqueness invariant holds afterwards. -/
theorem c5_first_write_capture_witness :
    (log_undo_entry c5Wit 0).undo_log = [⟨0, 5, 1⟩] ∧
    List.Pairwise
      (fun e1 e2 => ¬ (e1.logical_index = e2.logical_index ∧
        e1.stack_level = e2.stack_level))
      (log_undo_entry c5Wit 0).undo_log := by
  have h := c5_first_write_capture c5Wit 0 (by decide)
  constructor
  · have h2 := h.2.1 ⟨[5, 5, 5], 1⟩ (by decide) (by decide) (by decide)
    rw [h2]
    rfl
  · exact h.2.2 List.Pairwise.nil

/-- C5 counterexample: the claim omits the capacity cap.  At `c5St` the
undo log respects the at-most-one-entry invariant (all 262144 entries have
distinct indices), a scope is open, and no entry exists for logical index
-5 — yet `log_undo_entry` appends nothing: the log is at the hard cap, so
the "otherwise it appends exactly one entry" half of the claim fails. -/
theorem c5LogAux_length (n : Nat) : (c5LogAux n).length = n := by
  induction n with
  | zero => rfl
  | succ m ih => rw [c5LogAux, List.length_cons, ih]

theorem c5LogAux_mem (n : Nat) :
    ∀ e, e ∈ c5LogAux n → ∃ k, k < n ∧ e = ⟨(k : Int), 7, 1⟩ := by
  induction n with
  | zero =>
    intro e he
    exact absurd he (List.not_mem_nil e)
  | succ m ih =>
    intro e he
    rw [c5LogAux] at he
    rcases List.mem_cons.mp he with he | he
    · exact ⟨m, by omega, he⟩
    · obtain ⟨k, hk, hke⟩ := ih e he
      exact ⟨k, by omega, hke⟩

theorem c5LogAux_find (n : Nat) :
    (c5LogAux n).find? (undoBlocks (-5) 1) = none := by
  apply List.find?_eq_none.mpr
  intro x hx
  obtain ⟨k, hk, hke⟩ := c5LogAux_mem n x hx
  rw [hke]
  unfold undoBlocks
  simp only [decide_eq_true_eq]
  intro hcon
  have h1 : (k : Int) = -5 := hcon.1
  omega

theorem c5LogAux_pairwise (n : Nat) :
    List.Pairwise
      (fun e1 e2 => ¬ (e1.logical_index = e2.logical_index ∧
        e1.stack_level = e2.stack_level)) (c5LogAux n) := by
  induction n with
  | zero => exact List.Pairwise.nil
  | succ m ih =>
    rw [c5LogAux]
    refine List.Pairwise.cons ?_ ih
    intro e he hcon
    obtain ⟨k, hk, hke⟩ := c5LogAux_mem m e he
    rw [hke] at hcon
    have h1 : (m : Int) = (k : Int) := hcon.1
    omega

theorem c5_cap_counterexample :
    List.Pairwise
      (fun e1 e2 => ¬ (e1.logical_index = e2.logical_index ∧
        e1.stack_level = e2.stack_level)) c5St.undo_log ∧
    ¬ c5St.top = 0 ∧
    (c5St.undo_log.find? (undoBlocks (-5) c5St.top)).isSome = false ∧
    log_undo_entry c5St (-5) = c5St := by
  have hlog : c5St.undo_log = c5LogAux 262144 := rfl
  have htop5 : ¬ c5St.top = 0 := by
    show ¬ ([1, 0] : List Int).length - 1 = 0
    decide
  have htopeq : c5St.top = 1 := by
    show ([1, 0] : List Int).length - 1 = 1
    decide
  have hnone : c5St.undo_log.find? (undoBlocks (-5) c5St.top) = none := by
    rw [hlog, htopeq]
    exact c5LogAux_find 262144
  refine ⟨?_, htop5, by rw [hnone]; rfl, ?_⟩
  · rw [hlog]
    exact c5LogAux_pairwise 262144
  · refine log_undo_cap_fail c5St (-5) htop5 ?_ ⟨?_, ?_⟩
    · rw [hnone]
      simp
    · rw [hlog, c5LogAux_length]
      show (262144 : Nat) ≥ 262144
      decide
    · show capGrow 262144 > MAX_CODE_SIZE * 4
      decide

end BFpp
